import Mathlib

/-!
# A record store driven by command-line flags

A shallow embedding of `main.go`: the user record, the in-memory collection
with its `FindById`, `Add` and `Remove` methods, the file-backed storage used
by `Load` and `Save`, the two argument checks and the dispatcher `Perform`.

Conventions of the embedding.

* A Go `error` is an `Option String`: `none` is `nil`, `some msg` is an error
  whose text is `msg`.
* A Go `[]User` is an `Option (List User)`: `none` is the `nil` slice, which
  `json.Marshal` and `append` tell apart from an empty non-nil slice.
* A method with a pointer receiver returns the receiver after the call next
  to its Go results.
* The standard-library functions whose code is not part of the program
  (`fmt.Sprintf` on a table-supplied format, `json.Marshal`,
  `json.Unmarshal`) are parameters, gathered in `GoStd`.
* Strings held by the collection are produced by `json.Unmarshal`, which
  always yields well-formed UTF-8, and flag values are taken to be
  well-formed UTF-8 text, so a Go string is a Lean `String`.
* A Go map that is only indexed is an association list read with
  `List.lookup`; the flag table, which `checkArgs` ranges over, is the list of
  its entries in visiting order, so a statement for every list is a statement
  for every order.
-/

namespace Homework8

/-! ## Data model -/

/-- User record, `type User struct` (main.go 15-19); `Age` is a `uint8`. -/
structure User where
  Id : String
  Email : String
  Age : Fin 256
deriving DecidableEq, Repr

/-- Zero value `User{}`. -/
def User.zero : User := { Id := "", Email := "", Age := 0 }

/-- Go slice of users; `none` is the nil slice. -/
abbrev UserSlice := Option (List User)

/-- Elements of a slice, in order (what `range` visits). -/
def elems : UserSlice → List User
  | none => []
  | some l => l

/-- Go `append(s, xs...)`: appending nothing to a nil slice gives nil, every
other result is a non-nil slice. -/
def goAppend (s : UserSlice) (xs : List User) : UserSlice :=
  match s, xs with
  | none, [] => none
  | s, xs => some (elems s ++ xs)

/-- Standard-library functions the program calls, taken as parameters.
`Sprintf format a` is `fmt.Sprintf(format, a)` for one string operand;
`MarshalUsers` and `MarshalUser` are `json.Marshal` on a `[]User` and on a
`User`; `UnmarshalUsers data dst` and `UnmarshalUser data dst` give the value
held by the destination after `json.Unmarshal(data, &dst)`, whatever the
returned error was (the program drops it). -/
structure GoStd where
  Sprintf : String → String → String
  MarshalUsers : UserSlice → String
  MarshalUser : User → String
  UnmarshalUsers : String → UserSlice → UserSlice
  UnmarshalUser : String → User → User

/-! ## Storage -/

/-- Observable storage events, kept as a ghost log in the world. -/
inductive Event where
  | opened (name : String)
  | truncated (name : String)
  | read (name : String)
  | wrote (name : String) (data : String)
  | closed (name : String)
deriving DecidableEq, Repr

/-- The file system the process runs against: the content of each path
(`none` when the path does not exist), the paths on which `os.OpenFile`
returns an error, and the log of storage events so far. -/
structure World where
  files : String → Option String
  openFails : String → Bool
  trace : List Event

/-- Open file handle, `type fileDS struct` (main.go 31-33): the path it was
opened on and the current offset. -/
structure fileDS where
  name : String
  pos : Nat
deriving DecidableEq, Repr

/-- Storage factory type, `type datasource func() ReadWriteCloseReseter`;
`none` is the process ending in `log.Fatal`. -/
abbrev datasource := World → Option (World × fileDS)

/-- Parameterised factory type, `type dsInitiator`. -/
abbrev dsInitiator := String → World → Option (World × fileDS)

/-- Content of a path, empty when the path does not exist. -/
def World.content (w : World) (name : String) : String :=
  (w.files name).getD ""

/-- Replace the content of one path. -/
def World.setFile (w : World) (name : String) (data : String) : World :=
  { w with files := fun n => if n = name then some data else w.files n }

/-- Append one event to the log. -/
def World.log (w : World) (e : Event) : World :=
  { w with trace := w.trace ++ [e] }

/-- `fileDS.Reset` (main.go 35-38): truncate to length 0 and seek to 0. -/
def fileDS.Reset (fds : fileDS) (w : World) : World × fileDS :=
  ((w.setFile fds.name "").log (Event.truncated fds.name), { fds with pos := 0 })

/-- `io.ReadAll` through `fileDS.Read` (main.go 40-42): everything from the
current offset to the end of the file. -/
def fileDS.ReadAll (fds : fileDS) (w : World) : World × fileDS × String :=
  let data := (w.content fds.name).data
  (w.log (Event.read fds.name), { fds with pos := max fds.pos data.length },
    String.mk (data.drop fds.pos))

/-- `fileDS.Write` (main.go 44-46): overwrite at the current offset, padding
with NUL when the offset is past the end, and advance the offset. -/
def fileDS.Write (fds : fileDS) (p : String) (w : World) : World × fileDS :=
  let old := (w.content fds.name).data
  let pad := List.replicate (fds.pos - old.length) (Char.ofNat 0)
  let new := old.take fds.pos ++ pad ++ p.data ++ old.drop (fds.pos + p.data.length)
  ((w.setFile fds.name (String.mk new)).log (Event.wrote fds.name p),
    { fds with pos := fds.pos + p.data.length })

/-- `fileDS.Close` (main.go 48-50). -/
def fileDS.Close (fds : fileDS) (w : World) : World :=
  w.log (Event.closed fds.name)

/-- `fileDataSource` (main.go 61-70): open read-write, creating the file when
absent; an open error ends the process (`none`). -/
def fileDataSource : dsInitiator := fun filename w =>
  if w.openFails filename then none
  else
    let w1 := match w.files filename with
      | some _ => w
      | none => w.setFile filename ""
    some (w1.log (Event.opened filename), { name := filename, pos := 0 })

/-- `createDS` (main.go 52-56): fix the parameter of a factory. -/
def createDS (f : dsInitiator) (dsParam : String) : datasource :=
  fun w => f dsParam w

/-! ## The collection -/

/-- The store, `type UserList struct` (main.go 21-24); the embedded factory is
`none` in the zero value. -/
structure UserList where
  datasource : Option datasource
  list : UserSlice

/-- Zero value `UserList{}`. -/
def UserList.zero : UserList := { datasource := none, list := none }

/-- Result of a method that returns `(*UserList, error)`: the receiver after the
call, the store the returned pointer refers to, and the error. -/
structure Outcome where
  recv : UserList
  ret : UserList
  err : Option String

/-- The `range` loop of `FindById`: the first user with the given id. -/
def findLoop (id : String) : List User → Option User
  | [] => none
  | u :: us => if u.Id = id then some u else findLoop id us

/-- `UserList.FindById` (main.go 136-144): the receiver after the call, the
returned user and the returned error. -/
def UserList.FindById (ul : UserList) (id : String) : UserList × User × Option String :=
  match findLoop id (elems ul.list) with
  | some u => (ul, u, none)
  | none => (ul, User.zero, some ("user with id = " ++ id ++ " is not found"))

/-- `UserList.New` (main.go 72-75). -/
def UserList.New (ul : UserList) (ds : Homework8.datasource) : UserList :=
  { ul with datasource := some ds }

/-- `UserList.Add` (main.go 109-118). -/
def UserList.Add (L : GoStd) (ul : UserList) (item : String) : Outcome :=
  let userItem := L.UnmarshalUser item User.zero
  match ul.FindById userItem.Id with
  | (ul1, _, none) =>
    { recv := ul1, ret := UserList.zero,
      err := some ("Item with id " ++ userItem.Id ++ " already exists") }
  | (ul1, _, some _) =>
    let ul2 := { ul1 with list := goAppend ul1.list [userItem] }
    { recv := ul2, ret := ul2, err := none }

/-- The `range` loop of `Remove` over the remaining elements `us`, `i` being
the index of the head of `us`: at the first user with the given id the
collection becomes `append(append(nil, list[:i]...), list[i+1:]...)`. -/
def removeLoop (id : String) (list : UserSlice) : List User → Nat → UserSlice
  | [], _ => list
  | u :: us, i =>
    if u.Id = id then
      let t : UserSlice := none
      let t := goAppend t ((elems list).take i)
      goAppend t ((elems list).drop (i + 1))
    else removeLoop id list us (i + 1)

/-- `UserList.Remove` (main.go 120-134). -/
def UserList.Remove (ul : UserList) (id : String) : Outcome :=
  match ul.FindById id with
  | (ul1, _, some _) =>
    { recv := ul1, ret := UserList.zero,
      err := some ("Item with id " ++ id ++ " not found") }
  | (ul1, _, none) =>
    let ul2 := { ul1 with list := removeLoop id ul1.list (elems ul1.list) 0 }
    { recv := ul2, ret := ul2, err := none }

/-- A finite sequence of `Add` calls on one store, errors ignored. -/
def addAll (L : GoStd) (ul : UserList) (items : List String) : UserList :=
  items.foldl (fun u item => (u.Add L item).recv) ul

/-- `UserList.Load` (main.go 77-87): open a fresh handle, read everything,
decode into the collection, close the handle (deferred). `none` is the
process ending abnormally: the factory is nil or the open failed. -/
def UserList.Load (L : GoStd) (ul : UserList) (w : World) : Option (World × UserList) :=
  match ul.datasource with
  | none => none
  | some ds =>
    match ds w with
    | none => none
    | some (w1, f) =>
      let (w2, f1, userFileContent) := f.ReadAll w1
      let ul1 := { ul with list := L.UnmarshalUsers userFileContent ul.list }
      some (f1.Close w2, ul1)

/-- `UserList.Save` (main.go 89-100): open a fresh handle, reset it, encode the
collection, write the bytes, close the handle (deferred). -/
def UserList.Save (L : GoStd) (ul : UserList) (w : World) : Option (World × UserList) :=
  match ul.datasource with
  | none => none
  | some ds =>
    match ds w with
    | none => none
    | some (w1, f) =>
      let (w2, f1) := f.Reset w1
      let sUserList := L.MarshalUsers ul.list
      let (w3, f2) := f1.Write sUserList w2
      some (f2.Close w3, ul)

/-- `UserList.List` (main.go 102-107); the writer is the list of chunks
written to it so far. -/
def UserList.List (L : GoStd) (ul : UserList) (w : List String) : UserList × List String :=
  let sUserList := L.MarshalUsers ul.list
  (ul, w ++ [sUserList])

/-! ## Argument checks -/

/-- Parsed flags, `type Arguments map[string]string`, read only by key. -/
abbrev Arguments := List (String × String)

/-- Go map index `args[k]`: the value, or the empty string when absent. -/
def index (args : Arguments) (k : String) : String :=
  (args.lookup k).getD ""

/-- The `ok` of `_, ok := args[k]`. -/
def has (args : Arguments) (k : String) : Bool :=
  (args.lookup k).isSome

/-- `type flagParams struct` (main.go 204-209); a nil and an empty
`allowedValues` are both the empty list, the code treats them alike. -/
structure flagParams where
  defaultValue : String
  usage : String
  required : Bool
  allowedValues : List String
  errorMsg : String
  errorValMsg : String
deriving DecidableEq, Repr

/-- The inner loop of `checkArgs` (main.go 169-175): the final `isFound`. -/
def isFoundLoop (x : String) : List String → Bool
  | [] => false
  | v :: vs => if v = x then true else isFoundLoop x vs

/-- `checkArgs` (main.go 163-182). The first argument is the flag table in
the order in which `range` visits it. -/
def checkArgs (L : GoStd) : List (String × flagParams) → Arguments → Option String
  | [], _ => none
  | (fl, params) :: rest, args =>
    if (!(has args fl) || (index args fl).length == 0) && params.required then
      some params.errorMsg
    else if decide (params.allowedValues.length > 0)
        && !(isFoundLoop (index args fl) params.allowedValues) then
      some (L.Sprintf params.errorValMsg (index args fl))
    else checkArgs L rest args

/-- `type opArgMap map[string][]string`, read only by key. -/
abbrev opArgMap := List (String × List String)

/-- The loop of `checkOpArgs` (main.go 186-190). -/
def checkOpLoop (arg : Arguments) : List String → Option String
  | [] => none
  | f :: fs =>
    if !(has arg f) || (index arg f).length == 0 then
      some ("-" ++ f ++ " flag has to be specified")
    else checkOpLoop arg fs

def idFlag : String := "id"
def itemFlag : String := "item"
def filenameFlag : String := "fileName"
def operationFlag : String := "operation"
def operationList : String := "list"
def operationAdd : String := "add"
def operationRemove : String := "remove"
def operationFindById : String := "findById"

/-- `checkOpArgs` (main.go 184-193); an operation missing from the map has the
nil slice of required flags. -/
def checkOpArgs (arg : Arguments) (m : opArgMap) : Option String :=
  let requiredFlags := (m.lookup (index arg operationFlag)).getD []
  checkOpLoop arg requiredFlags

/-- The flag table `flags` (main.go 211-244), in source order. -/
def flags : List (String × flagParams) :=
  [ (operationFlag,
      { defaultValue := "no", usage := "add user item to dataset", required := true,
        allowedValues := [operationList, operationAdd, operationRemove, operationFindById],
        errorMsg := "-operation flag has to be specified",
        errorValMsg := "Operation %s not allowed!" }),
    (itemFlag,
      { defaultValue := "no", usage := "item in json format which represent user entity",
        required := false, allowedValues := [], errorMsg := "", errorValMsg := "" }),
    (filenameFlag,
      { defaultValue := "no", usage := "filename with user database", required := true,
        allowedValues := [], errorMsg := "-fileName flag has to be specified",
        errorValMsg := "" }),
    (idFlag,
      { defaultValue := "no", usage := "user identification", required := false,
        allowedValues := [], errorMsg := "", errorValMsg := "" }) ]

/-- The map `opRequiredFlagsMap` (main.go 248-252). -/
def opRequiredFlagsMap : opArgMap :=
  [ (operationAdd, [itemFlag]),
    (operationRemove, [idFlag]),
    (operationFindById, [idFlag]) ]

/-! ## Dispatcher -/

/-- What one call of `Perform` leaves behind: the world, the chunks written to
the writer, and the returned error. -/
structure Run where
  world : World
  out : List String
  err : Option String

/-- The tail of `Perform` after a recognised operation (main.go 294-299): the
outer `err` is nil there, so `Save` runs and nil is returned. -/
def finish (L : GoStd) (u : UserList) (out : List String) (w : World) : Option Run :=
  match u.Save L w with
  | none => none
  | some (w1, _) => some { world := w1, out := out, err := none }

/-- `Perform` (main.go 254-300). `order` is the flag table in the order in
which `checkArgs` visits it, `writer` the chunks already written to the
output sink; `none` is the process ending abnormally inside `Load` or
`Save`. -/
def Perform (L : GoStd) (order : List (String × flagParams)) (args : Arguments)
    (writer : List String) (w : World) : Option Run :=
  match checkArgs L order args with
  | some err => some { world := w, out := writer, err := some err }
  | none =>
    match checkOpArgs args opRequiredFlagsMap with
    | some err => some { world := w, out := writer, err := some err }
    | none =>
      let u := UserList.zero
      let ds := createDS fileDataSource (index args filenameFlag)
      match (u.New ds).Load L w with
      | none => none
      | some (w1, u) =>
        if index args operationFlag = operationList then
          let (u, writer) := u.List L writer
          finish L u writer w1
        else if index args operationFlag = operationAdd then
          let r := u.Add L (index args itemFlag)
          match r.err with
          | some addErr => finish L r.recv (writer ++ [addErr]) w1
          | none => finish L r.recv writer w1
        else if index args operationFlag = operationRemove then
          let r := u.Remove (index args idFlag)
          match r.err with
          | some removeErr => finish L r.recv (writer ++ [removeErr]) w1
          | none => finish L r.recv writer w1
        else if index args operationFlag = operationFindById then
          match u.FindById (index args idFlag) with
          | (u, _, some _) => finish L u (writer ++ [""]) w1
          | (u, found, none) => finish L u (writer ++ [L.MarshalUser found]) w1
        else
          some { world := w1, out := writer, err := some ">> Requested unknown operation" }

/-! ## A concrete standard library

An instance of `GoStd` on which the theorems can be evaluated. Its encoder
writes what `json.Marshal` writes for a `User` and a `[]User`. Its decoder
accepts the texts this encoder writes, a sub-language of what
`json.Unmarshal` accepts, and leaves the destination as it was on every other
input, as `json.Unmarshal` does on a syntax error. Its `Sprintf` covers
formats made of plain text, `%%`, `%s` and `%v`. -/

def quoteChar : Char := Char.ofNat 34
def backslashChar : Char := Char.ofNat 92

/-- Lower-case hexadecimal digit of a number below 16. -/
def hexDigit (n : Nat) : Char :=
  "0123456789abcdef".data.getD n '0'

/-- The escape of one character inside a JSON string, HTML escaping on. -/
def escapeChar (c : Char) : List Char :=
  if c = quoteChar then [backslashChar, quoteChar]
  else if c = backslashChar then [backslashChar, backslashChar]
  else if c.toNat = 8 then [backslashChar, 'b']
  else if c.toNat = 12 then [backslashChar, 'f']
  else if c.toNat = 10 then [backslashChar, 'n']
  else if c.toNat = 13 then [backslashChar, 'r']
  else if c.toNat = 9 then [backslashChar, 't']
  else if c.toNat < 32 ∨ c = '<' ∨ c = '>' ∨ c = '&' then
    [backslashChar, 'u', '0', '0', hexDigit (c.toNat / 16), hexDigit (c.toNat % 16)]
  else if c.toNat = 8232 then [backslashChar, 'u', '2', '0', '2', '8']
  else if c.toNat = 8233 then [backslashChar, 'u', '2', '0', '2', '9']
  else [c]

def escapeAll : List Char → List Char
  | [] => []
  | c :: cs => escapeChar c ++ escapeAll cs

/-- A JSON string literal. -/
def encodeString (s : String) : List Char :=
  quoteChar :: (escapeAll s.data ++ [quoteChar])

/-- One user as a JSON object, keys in declaration order. -/
def encodeUser (u : User) : List Char :=
  "\x7b\"id\":".data ++ encodeString u.Id ++ ",\"email\":".data ++ encodeString u.Email
    ++ ",\"age\":".data ++ (Nat.repr u.Age.val).data ++ "\x7d".data

def encodeTail : List User → List Char
  | [] => [']']
  | u :: us => ',' :: (encodeUser u ++ encodeTail us)

/-- A slice as a JSON array; the nil slice is `null`. -/
def encodeUsers : UserSlice → List Char
  | none => "null".data
  | some [] => "[]".data
  | some (u :: us) => '[' :: (encodeUser u ++ encodeTail us)

def hexVal (c : Char) : Option Nat :=
  if 48 ≤ c.toNat ∧ c.toNat ≤ 57 then some (c.toNat - 48)
  else if 97 ≤ c.toNat ∧ c.toNat ≤ 102 then some (c.toNat - 87)
  else none

/-- The character a one-letter escape stands for. -/
def unescape (e : Char) : Option Char :=
  if e = quoteChar then some quoteChar
  else if e = backslashChar then some backslashChar
  else if e = 'b' then some (Char.ofNat 8)
  else if e = 'f' then some (Char.ofNat 12)
  else if e = 'n' then some (Char.ofNat 10)
  else if e = 'r' then some (Char.ofNat 13)
  else if e = 't' then some (Char.ofNat 9)
  else none

/-- Decode the body of a string literal, the opening quote already read: the
decoded characters and the input after the closing quote. -/
def decodeBody : List Char → Option (List Char × List Char)
  | [] => none
  | c :: rest =>
    if c = quoteChar then some ([], rest)
    else if c = backslashChar then
      match rest with
      | [] => none
      | e :: rest1 =>
        if e = 'u' then
          match rest1 with
          | a :: b :: c1 :: d :: rest2 =>
            match hexVal a, hexVal b, hexVal c1, hexVal d with
            | some x, some y, some z, some t =>
              let n := ((x * 16 + y) * 16 + z) * 16 + t
              if n.isValidChar then
                match decodeBody rest2 with
                | some (s, r) => some (Char.ofNat n :: s, r)
                | none => none
              else none
            | _, _, _, _ => none
          | _ => none
        else
          match unescape e with
          | some ch =>
            match decodeBody rest1 with
            | some (s, r) => some (ch :: s, r)
            | none => none
          | none => none
    else if c.toNat < 32 then none
    else
      match decodeBody rest with
      | some (s, r) => some (c :: s, r)
      | none => none

/-- Read a run of decimal digits. -/
def digitsLoop : List Char → Nat → Nat × List Char
  | [], acc => (acc, [])
  | c :: rest, acc =>
    if 48 ≤ c.toNat ∧ c.toNat ≤ 57 then digitsLoop rest (acc * 10 + (c.toNat - 48))
    else (acc, c :: rest)

/-- Decode a `uint8`: a non-empty digit run without a leading zero, below 256. -/
def decodeAge (cs : List Char) : Option (Fin 256 × List Char) :=
  match cs with
  | [] => none
  | c :: rest =>
    if c = '0' then some (0, rest)
    else if 49 ≤ c.toNat ∧ c.toNat ≤ 57 then
      let r := digitsLoop cs 0
      if h : r.1 < 256 then some (⟨r.1, h⟩, r.2) else none
    else none

/-- Read a fixed text off the front of the input. -/
def expect : List Char → List Char → Option (List Char)
  | [], cs => some cs
  | _ :: _, [] => none
  | l :: ls, c :: cs => if l = c then expect ls cs else none

/-- Decode one user object off the front of the input. -/
def decodeUserAt (cs : List Char) : Option (User × List Char) :=
  match expect "\x7b\"id\":\"".data cs with
  | none => none
  | some cs1 =>
    match decodeBody cs1 with
    | none => none
    | some (id, cs2) =>
      match expect ",\"email\":\"".data cs2 with
      | none => none
      | some cs3 =>
        match decodeBody cs3 with
        | none => none
        | some (email, cs4) =>
          match expect ",\"age\":".data cs4 with
          | none => none
          | some cs5 =>
            match decodeAge cs5 with
            | none => none
            | some (age, cs6) =>
              match expect "\x7d".data cs6 with
              | none => none
              | some cs7 => some ({ Id := String.mk id, Email := String.mk email, Age := age }, cs7)

/-- Decode the elements of an array, the opening bracket already read. -/
def decodeElems : Nat → List Char → Option (List User)
  | 0, _ => none
  | fuel + 1, cs =>
    match decodeUserAt cs with
    | none => none
    | some (u, rest) =>
      match rest with
      | [c] => if c = ']' then some [u] else none
      | c :: rest1 =>
        if c = ',' then
          match decodeElems fuel rest1 with
          | some us => some (u :: us)
          | none => none
        else none
      | [] => none

def decodeUser (data : String) (dst : User) : User :=
  match decodeUserAt data.data with
  | some (u, []) => u
  | _ => dst

def decodeUsers (data : String) (dst : UserSlice) : UserSlice :=
  if data = "null" then none
  else if data = "[]" then some []
  else
    match data.data with
    | [] => dst
    | c :: rest =>
      if c = '[' then
        match decodeElems rest.length rest with
        | some us => some us
        | none => dst
      else dst

/-- The loop of `Sprintf` over the format; the operand is `some a` until a
verb has used it. -/
def sprintfLoop : List Char → Option String → List Char
  | [], none => []
  | [], some a => "%!(EXTRA string=".data ++ a.data ++ [')']
  | c :: rest, arg =>
    if c = '%' then
      match rest with
      | [] => "%!(NOVERB)".data ++ sprintfLoop [] arg
      | v :: rest1 =>
        if v = '%' then '%' :: sprintfLoop rest1 arg
        else
          match arg with
          | some a =>
            if v = 's' ∨ v = 'v' then a.data ++ sprintfLoop rest1 none
            else "%!".data ++ [v] ++ "(string=".data ++ a.data ++ [')'] ++ sprintfLoop rest1 none
          | none => "%!".data ++ [v] ++ "(MISSING)".data ++ sprintfLoop rest1 none
    else c :: sprintfLoop rest arg

def sprintf (format : String) (a : String) : String :=
  String.mk (sprintfLoop format.data (some a))

/-- The concrete instance. -/
def goStd : GoStd :=
  { Sprintf := sprintf
    MarshalUsers := fun l => String.mk (encodeUsers l)
    MarshalUser := fun u => String.mk (encodeUser u)
    UnmarshalUsers := decodeUsers
    UnmarshalUser := decodeUser }

/-! ## Vocabulary of the statements -/

/-- A flag is absent or empty in the arguments. -/
def absentOrEmpty (args : Arguments) (k : String) : Prop :=
  args.lookup k = none ∨ args.lookup k = some ""

instance (args : Arguments) (k : String) : Decidable (absentOrEmpty args k) := by
  unfold absentOrEmpty
  infer_instance

/-- A table entry rejects the arguments: the flag is required and absent or
empty, or it declares a non-empty set of allowed values that does not hold
the supplied value (the empty string when the flag is absent). -/
def flagFails (args : Arguments) (q : String × flagParams) : Prop :=
  (q.2.required = true ∧ absentOrEmpty args q.1) ∨
  (q.2.allowedValues ≠ [] ∧ index args q.1 ∉ q.2.allowedValues)

instance (args : Arguments) (q : String × flagParams) : Decidable (flagFails args q) := by
  unfold flagFails
  infer_instance

/-- A world with no file, in which every path can be opened. -/
def emptyWorld : World :=
  { files := fun _ => none, openFails := fun _ => false, trace := [] }

/-! ## A decoder that reports how decoding ended

`json.Unmarshal` checks the syntax of the whole input before it assigns
anything, then decodes field by field: a value of the wrong type, or a number
that does not fit the field, is skipped and reported as an error once the
other fields are decoded. The decoder below covers the layout the encoder
writes, with the age given as a number or as a string literal; every other
input is rejected with the destination untouched. -/

/-- How decoding ended: without error, with a type error reported after the
other fields were decoded, or with the input rejected before any field was
assigned. -/
inductive DecodeStatus where
  | ok
  | typeError
  | rejected
deriving DecidableEq, Repr

/-- The value found under the age key: a number that fits a `uint8`, a number
that does not, or a string literal. -/
inductive AgeValue where
  | fits (n : Fin 256)
  | overflow
  | text
deriving DecidableEq, Repr

/-- Read the value under the age key off the front of the input. -/
def decodeAgeValue (cs : List Char) : Option (AgeValue × List Char) :=
  match cs with
  | [] => none
  | c :: rest =>
    if c = quoteChar then
      match decodeBody rest with
      | some (_, r) => some (AgeValue.text, r)
      | none => none
    else if c = '0' then some (AgeValue.fits 0, rest)
    else if 49 ≤ c.toNat ∧ c.toNat ≤ 57 then
      let r := digitsLoop cs 0
      if h : r.1 < 256 then some (AgeValue.fits ⟨r.1, h⟩, r.2)
      else some (AgeValue.overflow, r.2)
    else none

/-- Read one user object off the front of the input, the age left as found. -/
def decodeFieldsAt (cs : List Char) : Option (List Char × List Char × AgeValue × List Char) :=
  match expect "\x7b\"id\":\"".data cs with
  | none => none
  | some cs1 =>
    match decodeBody cs1 with
    | none => none
    | some (id, cs2) =>
      match expect ",\"email\":\"".data cs2 with
      | none => none
      | some cs3 =>
        match decodeBody cs3 with
        | none => none
        | some (email, cs4) =>
          match expect ",\"age\":".data cs4 with
          | none => none
          | some cs5 =>
            match decodeAgeValue cs5 with
            | none => none
            | some (age, cs6) =>
              match expect "\x7d".data cs6 with
              | none => none
              | some cs7 => some (id, email, age, cs7)

/-- The destination after decoding and how decoding ended. -/
def unmarshalUserTyped (data : String) (dst : User) : User × DecodeStatus :=
  match decodeFieldsAt data.data with
  | some (id, email, AgeValue.fits n, []) =>
    ({ Id := String.mk id, Email := String.mk email, Age := n }, DecodeStatus.ok)
  | some (id, email, _, []) =>
    ({ Id := String.mk id, Email := String.mk email, Age := dst.Age }, DecodeStatus.typeError)
  | _ => (dst, DecodeStatus.rejected)

/-- The concrete library with the decoder above for single users. -/
def goStdTyped : GoStd :=
  { Sprintf := sprintf
    MarshalUsers := fun l => String.mk (encodeUsers l)
    MarshalUser := fun u => String.mk (encodeUser u)
    UnmarshalUsers := decodeUsers
    UnmarshalUser := fun data dst => (unmarshalUserTyped data dst).1 }

/-- A world with no file, in which no path can be opened. -/
def closedWorld : World :=
  { files := fun _ => none, openFails := fun _ => true, trace := [] }

/-! ## Theorems -/

/-! ### Lemmas on the scans -/

theorem elems_goAppend (s : UserSlice) (xs : List User) :
    elems (goAppend s xs) = elems s ++ xs := by
  cases s with
  | none => cases xs <;> simp [goAppend, elems]
  | some l => simp [goAppend, elems]

theorem findLoop_eq_none_iff (id : String) (l : List User) :
    findLoop id l = none ↔ ∀ u ∈ l, u.Id ≠ id := by
  induction l with
  | nil => simp [findLoop]
  | cons a t ih =>
    by_cases h : a.Id = id
    · simp [findLoop, h]
    · simp [findLoop, h, ih]

theorem findLoop_append (id : String) (pre : List User) (u : User) (post : List User)
    (hu : u.Id = id) (hpre : ∀ x ∈ pre, x.Id ≠ id) :
    findLoop id (pre ++ u :: post) = some u := by
  induction pre with
  | nil => simp [findLoop, hu]
  | cons a t ih =>
    have ha : a.Id ≠ id := hpre a (List.mem_cons_self a t)
    have ht : ∀ x ∈ t, x.Id ≠ id := fun x hx => hpre x (List.mem_cons_of_mem a hx)
    simp [findLoop, ha, ih ht]

theorem findLoop_some_split (id : String) (l : List User) (u : User)
    (h : findLoop id l = some u) :
    ∃ pre post, l = pre ++ u :: post ∧ u.Id = id ∧ ∀ x ∈ pre, x.Id ≠ id := by
  induction l with
  | nil => simp [findLoop] at h
  | cons a t ih =>
    by_cases ha : a.Id = id
    · simp [findLoop, ha] at h
      subst h
      exact ⟨[], t, rfl, ha, by simp⟩
    · simp [findLoop, ha] at h
      obtain ⟨pre, post, hl, hu, hpre⟩ := ih h
      refine ⟨a :: pre, post, by simp [hl], hu, ?_⟩
      intro x hx
      rcases List.mem_cons.mp hx with rfl | hx
      · exact ha
      · exact hpre x hx

theorem findLoop_isSome_iff (id : String) (l : List User) :
    (∃ u, findLoop id l = some u) ↔ ∃ u ∈ l, u.Id = id := by
  constructor
  · rintro ⟨u, hu⟩
    obtain ⟨pre, post, hl, hid, _⟩ := findLoop_some_split id l u hu
    exact ⟨u, by simp [hl], hid⟩
  · rintro ⟨u, hu, hid⟩
    cases hf : findLoop id l with
    | some v => exact ⟨v, rfl⟩
    | none => exact absurd hid ((findLoop_eq_none_iff id l).mp hf u hu)

/-- The scan of `Remove`, started at index `pre.length` on the suffix `rest` of
a collection `pre ++ rest` whose prefix holds no match: at the first match the
collection loses exactly that element. -/
theorem removeLoop_split (id : String) (list : UserSlice) (pre : List User) (u : User)
    (post : List User) (done : List User)
    (hl : elems list = done ++ (pre ++ u :: post)) (hu : u.Id = id)
    (hpre : ∀ x ∈ pre, x.Id ≠ id) :
    elems (removeLoop id list (pre ++ u :: post) done.length) = done ++ (pre ++ post) := by
  induction pre generalizing done with
  | nil =>
    have hnone : elems (none : UserSlice) = [] := rfl
    simp only [List.nil_append] at hl
    simp only [List.nil_append, removeLoop, hu, if_true, elems_goAppend, hnone, hl]
    simp
  | cons a t ih =>
    have ha : a.Id ≠ id := hpre a (List.mem_cons_self a t)
    have ht : ∀ x ∈ t, x.Id ≠ id := fun x hx => hpre x (List.mem_cons_of_mem a hx)
    have := ih (done ++ [a]) (by simp [hl]) ht
    simp only [List.cons_append, removeLoop, ha, if_false]
    simpa using this

theorem Add_of_found (L : GoStd) (ul : UserList) (item : String) (v : User)
    (hf : findLoop (L.UnmarshalUser item User.zero).Id (elems ul.list) = some v) :
    ul.Add L item =
      { recv := ul, ret := UserList.zero,
        err := some ("Item with id " ++ (L.UnmarshalUser item User.zero).Id
          ++ " already exists") } := by
  simp only [UserList.Add, UserList.FindById, hf]

theorem Add_of_not_found (L : GoStd) (ul : UserList) (item : String)
    (hf : findLoop (L.UnmarshalUser item User.zero).Id (elems ul.list) = none) :
    ul.Add L item =
      { recv := { ul with list := goAppend ul.list [L.UnmarshalUser item User.zero] },
        ret := { ul with list := goAppend ul.list [L.UnmarshalUser item User.zero] },
        err := none } := by
  simp only [UserList.Add, UserList.FindById, hf]

theorem Remove_of_not_found (ul : UserList) (id : String)
    (hf : findLoop id (elems ul.list) = none) :
    ul.Remove id =
      { recv := ul, ret := UserList.zero,
        err := some ("Item with id " ++ id ++ " not found") } := by
  simp only [UserList.Remove, UserList.FindById, hf]

theorem Remove_of_found (ul : UserList) (id : String) (v : User)
    (hf : findLoop id (elems ul.list) = some v) :
    ul.Remove id =
      { recv := { ul with list := removeLoop id ul.list (elems ul.list) 0 },
        ret := { ul with list := removeLoop id ul.list (elems ul.list) 0 },
        err := none } := by
  simp only [UserList.Remove, UserList.FindById, hf]

/-- `Add` keeps the ids of the collection pairwise distinct. -/
theorem Add_keeps_nodup (L : GoStd) (ul : UserList) (item : String)
    (h : ((elems ul.list).map User.Id).Nodup) :
    ((elems (ul.Add L item).recv.list).map User.Id).Nodup := by
  cases hf : findLoop (L.UnmarshalUser item User.zero).Id (elems ul.list) with
  | some v => rw [Add_of_found L ul item v hf]; exact h
  | none =>
    have hno := (findLoop_eq_none_iff _ _).mp hf
    rw [Add_of_not_found L ul item hf]
    simp only [elems_goAppend, List.map_append, List.map_cons, List.map_nil]
    rw [List.nodup_append]
    refine ⟨h, List.nodup_singleton _, ?_⟩
    intro a ha hb
    simp only [List.mem_singleton] at hb
    obtain ⟨x, hx, hxa⟩ := List.mem_map.mp ha
    exact hno x hx (hxa.trans hb)

theorem addAll_keeps_nodup (L : GoStd) (items : List String) (ul : UserList)
    (h : ((elems ul.list).map User.Id).Nodup) :
    ((elems (addAll L ul items).list).map User.Id).Nodup := by
  induction items generalizing ul with
  | nil => simpa [addAll] using h
  | cons item rest ih =>
    have := ih (ul.Add L item).recv (Add_keeps_nodup L ul item h)
    simpa [addAll] using this

/-! ### The collection: claims C1 to C6 -/

/-- C1: starting from the empty collection, after any finite sequence of `Add`
calls with arbitrary item strings, whatever each call returned, the ids of
the records in the collection are pairwise distinct. -/
theorem C1_add_sequence_ids_distinct (L : GoStd) (items : List String) :
    ((elems (addAll L UserList.zero items).list).map User.Id).Nodup :=
  addAll_keeps_nodup L items UserList.zero (by simp [UserList.zero, elems])

/-- C2: `FindById` leaves the collection as it was; it returns no error exactly
when some record has the id; it then returns the first such record in
collection order, which is the only one when ids are distinct; and when no
record has the id it returns the zero user with the not-found error that
names the id. -/
theorem C2_FindById_spec (ul : UserList) (id : String) :
    (ul.FindById id).1 = ul ∧
    ((ul.FindById id).2.2 = none ↔ ∃ u ∈ elems ul.list, u.Id = id) ∧
    (∀ pre u post, elems ul.list = pre ++ u :: post → u.Id = id →
        (∀ x ∈ pre, x.Id ≠ id) → ul.FindById id = (ul, u, none)) ∧
    (((elems ul.list).map User.Id).Nodup →
        ∀ u ∈ elems ul.list, u.Id = id → ul.FindById id = (ul, u, none)) ∧
    ((∀ u ∈ elems ul.list, u.Id ≠ id) →
        ul.FindById id = (ul, User.zero, some ("user with id = " ++ id ++ " is not found"))) := by
  have hfirst : ∀ pre u post, elems ul.list = pre ++ u :: post → u.Id = id →
      (∀ x ∈ pre, x.Id ≠ id) → ul.FindById id = (ul, u, none) := by
    intro pre u post hl hu hpre
    simp [UserList.FindById, hl, findLoop_append id pre u post hu hpre]
  refine ⟨?_, ?_, hfirst, ?_, ?_⟩
  · unfold UserList.FindById
    cases findLoop id (elems ul.list) <;> rfl
  · rw [← findLoop_isSome_iff]
    unfold UserList.FindById
    cases findLoop id (elems ul.list) <;> simp
  · intro hnd u hu hid
    obtain ⟨v, hv⟩ := (findLoop_isSome_iff id (elems ul.list)).mpr ⟨u, hu, hid⟩
    obtain ⟨pre, post, hl, hvid, hpre⟩ := findLoop_some_split id _ v hv
    have huv : u = v := by
      rw [hl] at hu hnd
      rcases List.mem_append.mp hu with h1 | h1
      · exact absurd hid (hpre u h1)
      · rcases List.mem_cons.mp h1 with h2 | h2
        · exact h2
        · exfalso
          simp only [List.map_append, List.map_cons] at hnd
          have hc := (List.nodup_cons.mp (List.nodup_append.mp hnd).2.1).1
          exact hc (List.mem_map.mpr ⟨u, h2, hid.trans hvid.symm⟩)
    subst huv
    exact hfirst pre u post hl hvid hpre
  · intro hno
    simp [UserList.FindById, (findLoop_eq_none_iff id _).mpr hno]

/-- C3: on a collection of n records in which some record has the id,
`Remove` returns no error and leaves n-1 records: the original sequence with
only the first record of that id deleted, every other record kept in its
place relative to the others; the storage factory is untouched. -/
theorem C3_Remove_present (ul : UserList) (id : String)
    (h : ∃ u ∈ elems ul.list, u.Id = id) :
    (ul.Remove id).err = none ∧
    (elems (ul.Remove id).recv.list).length + 1 = (elems ul.list).length ∧
    (∃ pre u post, elems ul.list = pre ++ u :: post ∧ u.Id = id ∧
        (∀ x ∈ pre, x.Id ≠ id) ∧ elems (ul.Remove id).recv.list = pre ++ post) ∧
    (ul.Remove id).recv.datasource = ul.datasource := by
  obtain ⟨v, hv⟩ := (findLoop_isSome_iff id (elems ul.list)).mpr h
  obtain ⟨pre, post, hl, hvid, hpre⟩ := findLoop_some_split id _ v hv
  have hrem : elems (removeLoop id ul.list (elems ul.list) 0) = pre ++ post := by
    have := removeLoop_split id ul.list pre v post [] (by simpa using hl) hvid hpre
    rw [hl]
    simpa using this
  rw [Remove_of_found ul id v hv]
  refine ⟨rfl, ?_, ⟨pre, v, post, hl, hvid, hpre, hrem⟩, rfl⟩
  rw [hrem, hl]
  simp only [List.length_append, List.length_cons]
  omega

/-- Witness of C3: removing id 2 from the records 1, 2, 3, 2. -/
theorem C3_Remove_present_witness :
    (∃ u ∈ elems (some [⟨"1", "a", 1⟩, ⟨"2", "b", 2⟩, ⟨"3", "c", 3⟩, ⟨"2", "d", 4⟩]), u.Id = "2") ∧
    ((UserList.mk none
        (some [⟨"1", "a", 1⟩, ⟨"2", "b", 2⟩, ⟨"3", "c", 3⟩, ⟨"2", "d", 4⟩])).Remove "2").err = none ∧
    elems ((UserList.mk none
        (some [⟨"1", "a", 1⟩, ⟨"2", "b", 2⟩, ⟨"3", "c", 3⟩, ⟨"2", "d", 4⟩])).Remove "2").recv.list
      = [⟨"1", "a", 1⟩, ⟨"3", "c", 3⟩, ⟨"2", "d", 4⟩] :=
  ⟨⟨⟨"2", "b", 2⟩, by decide, rfl⟩,
    (C3_Remove_present
      (UserList.mk none (some [⟨"1", "a", 1⟩, ⟨"2", "b", 2⟩, ⟨"3", "c", 3⟩, ⟨"2", "d", 4⟩])) "2"
      ⟨⟨"2", "b", 2⟩, by decide, rfl⟩).1,
    by decide⟩

/-- C4: on a collection in which no record has the id, `Remove` returns the
error whose text is "Item with id <id> not found" and leaves the receiver,
collection included, exactly as it was. -/
theorem C4_Remove_absent (ul : UserList) (id : String)
    (h : ∀ u ∈ elems ul.list, u.Id ≠ id) :
    (ul.Remove id).err = some ("Item with id " ++ id ++ " not found") ∧
    (ul.Remove id).recv = ul := by
  rw [Remove_of_not_found ul id ((findLoop_eq_none_iff id _).mpr h)]
  exact ⟨rfl, rfl⟩

/-- Witness of C4: removing id 42 from the empty collection. -/
theorem C4_Remove_absent_witness :
    (∀ u ∈ elems UserList.zero.list, u.Id ≠ "42") ∧
    (UserList.zero.Remove "42").err = some "Item with id 42 not found" ∧
    (UserList.zero.Remove "42").recv = UserList.zero :=
  ⟨by simp [UserList.zero, elems],
    C4_Remove_absent UserList.zero "42" (by simp [UserList.zero, elems])⟩

/-- C5: when the item decodes to a record whose id no record of the collection
has, `Add` returns no error and the collection becomes the old sequence
followed by exactly that record: one record longer, the earlier records and
their order untouched; the storage factory is untouched. -/
theorem C5_Add_fresh (L : GoStd) (ul : UserList) (item : String)
    (h : ∀ u ∈ elems ul.list, u.Id ≠ (L.UnmarshalUser item User.zero).Id) :
    (ul.Add L item).err = none ∧
    elems (ul.Add L item).recv.list = elems ul.list ++ [L.UnmarshalUser item User.zero] ∧
    (elems (ul.Add L item).recv.list).length = (elems ul.list).length + 1 ∧
    (ul.Add L item).recv.datasource = ul.datasource := by
  rw [Add_of_not_found L ul item ((findLoop_eq_none_iff _ _).mpr h)]
  refine ⟨rfl, elems_goAppend _ _, ?_, rfl⟩
  simp [elems_goAppend]

/-- Witness of C5: adding the record of id 2 to a collection holding id 1. -/
theorem C5_Add_fresh_witness :
    (∀ u ∈ elems (some [⟨"1", "a@b.com", 30⟩]),
      u.Id ≠ (goStd.UnmarshalUser "\x7b\"id\":\"2\",\"email\":\"c@d.com\",\"age\":7\x7d"
        User.zero).Id) ∧
    elems ((UserList.mk none (some [⟨"1", "a@b.com", 30⟩])).Add goStd
        "\x7b\"id\":\"2\",\"email\":\"c@d.com\",\"age\":7\x7d").recv.list
      = [⟨"1", "a@b.com", 30⟩, ⟨"2", "c@d.com", 7⟩] :=
  ⟨by decide,
    (C5_Add_fresh goStd (UserList.mk none (some [⟨"1", "a@b.com", 30⟩]))
      "\x7b\"id\":\"2\",\"email\":\"c@d.com\",\"age\":7\x7d" (by decide)).2.1.trans (by decide)⟩

/-- C6: when the item decodes to a record whose id some record of the
collection already has, `Add` returns the error whose text is
"Item with id <id> already exists" and leaves the receiver, collection
included, exactly as it was. -/
theorem C6_Add_duplicate (L : GoStd) (ul : UserList) (item : String)
    (h : ∃ u ∈ elems ul.list, u.Id = (L.UnmarshalUser item User.zero).Id) :
    (ul.Add L item).err
      = some ("Item with id " ++ (L.UnmarshalUser item User.zero).Id ++ " already exists") ∧
    (ul.Add L item).recv = ul := by
  obtain ⟨v, hv⟩ := (findLoop_isSome_iff _ (elems ul.list)).mpr h
  rw [Add_of_found L ul item v hv]
  exact ⟨rfl, rfl⟩

/-- Witness of C6: adding a record of id 1 to a collection holding id 1. -/
theorem C6_Add_duplicate_witness :
    (∃ u ∈ elems (some [⟨"1", "a@b.com", 30⟩]),
      u.Id = (goStd.UnmarshalUser "\x7b\"id\":\"1\",\"email\":\"x@y.com\",\"age\":1\x7d"
        User.zero).Id) ∧
    ((UserList.mk none (some [⟨"1", "a@b.com", 30⟩])).Add goStd
        "\x7b\"id\":\"1\",\"email\":\"x@y.com\",\"age\":1\x7d").err
      = some "Item with id 1 already exists" :=
  ⟨⟨⟨"1", "a@b.com", 30⟩, by decide, by decide⟩,
    (C6_Add_duplicate goStd (UserList.mk none (some [⟨"1", "a@b.com", 30⟩]))
      "\x7b\"id\":\"1\",\"email\":\"x@y.com\",\"age\":1\x7d"
      ⟨⟨"1", "a@b.com", 30⟩, by decide, by decide⟩).1.trans (by decide)⟩

/-! ### Lemmas on the argument checks -/

theorem string_length_eq_zero (s : String) : s.length = 0 ↔ s = "" := by
  cases s with
  | mk d =>
    constructor
    · intro h
      have hd : d = [] := List.length_eq_zero.mp (show d.length = 0 from h)
      subst hd
      rfl
    · intro h
      rw [h]
      rfl

theorem absentOrEmpty_iff (args : Arguments) (k : String) :
    (!(has args k) || (index args k).length == 0) = true ↔ absentOrEmpty args k := by
  unfold absentOrEmpty has index
  cases h : args.lookup k with
  | none => simp
  | some v =>
    simp only [Option.isSome_some, Bool.not_true, Bool.false_or, Option.getD_some, beq_iff_eq,
      Option.some.injEq, false_or, reduceCtorEq]
    exact string_length_eq_zero v

theorem absentOrEmpty_iff_index (args : Arguments) (k : String) :
    absentOrEmpty args k ↔ index args k = "" := by
  unfold absentOrEmpty index
  cases h : args.lookup k with
  | none => simp
  | some v => simp

theorem isFoundLoop_iff (x : String) (l : List String) :
    isFoundLoop x l = true ↔ x ∈ l := by
  induction l with
  | nil => simp [isFoundLoop]
  | cons a t ih =>
    by_cases h : a = x
    · simp [isFoundLoop, h]
    · have h2 : ¬ x = a := fun e => h e.symm
      simp [isFoundLoop, h, h2, ih]

theorem checkArgs_cons_missing (L : GoStd) (fl : String) (p : flagParams)
    (rest : List (String × flagParams)) (args : Arguments)
    (h : p.required = true ∧ absentOrEmpty args fl) :
    checkArgs L ((fl, p) :: rest) args = some p.errorMsg := by
  have h1 := (absentOrEmpty_iff args fl).mpr h.2
  simp only [checkArgs, h1, h.1, Bool.and_self, if_true]

theorem checkArgs_cons_invalid (L : GoStd) (fl : String) (p : flagParams)
    (rest : List (String × flagParams)) (args : Arguments)
    (h : ¬ (p.required = true ∧ absentOrEmpty args fl))
    (ha : p.allowedValues ≠ []) (hx : index args fl ∉ p.allowedValues) :
    checkArgs L ((fl, p) :: rest) args = some (L.Sprintf p.errorValMsg (index args fl)) := by
  have h1 : ((!(has args fl) || (index args fl).length == 0) && p.required) = false := by
    rw [Bool.eq_false_iff]
    intro hc
    rw [Bool.and_eq_true] at hc
    exact h ⟨hc.2, (absentOrEmpty_iff args fl).mp hc.1⟩
  have h2 : isFoundLoop (index args fl) p.allowedValues = false := by
    rw [Bool.eq_false_iff]
    exact fun hc => hx ((isFoundLoop_iff _ _).mp hc)
  have h3 : p.allowedValues.length > 0 := List.length_pos.mpr ha
  simp [checkArgs, h1, h2, h3]

theorem checkArgs_cons_pass (L : GoStd) (fl : String) (p : flagParams)
    (rest : List (String × flagParams)) (args : Arguments)
    (h : ¬ flagFails args (fl, p)) :
    checkArgs L ((fl, p) :: rest) args = checkArgs L rest args := by
  have hreq : ¬ (p.required = true ∧ absentOrEmpty args fl) := fun hc => h (Or.inl hc)
  have hval : ¬ (p.allowedValues ≠ [] ∧ index args fl ∉ p.allowedValues) :=
    fun hc => h (Or.inr hc)
  have h1 : ((!(has args fl) || (index args fl).length == 0) && p.required) = false := by
    rw [Bool.eq_false_iff]
    intro hc
    rw [Bool.and_eq_true] at hc
    exact hreq ⟨hc.2, (absentOrEmpty_iff args fl).mp hc.1⟩
  have h2 : (decide (p.allowedValues.length > 0)
      && !(isFoundLoop (index args fl) p.allowedValues)) = false := by
    rw [Bool.eq_false_iff]
    intro hc
    rw [Bool.and_eq_true] at hc
    refine hval ⟨List.length_pos.mp (of_decide_eq_true hc.1), ?_⟩
    intro hmem
    have := (isFoundLoop_iff _ _).mpr hmem
    simp [this] at hc
  simp only [checkArgs, h1, h2]
  simp

/-- The error of `checkArgs` is the one of the first failing entry in visiting
order: its missing-value message when it is required and absent or empty,
otherwise its invalid-value message formatted with the supplied value. -/
theorem checkArgs_some_split (L : GoStd) (m : List (String × flagParams)) (args : Arguments)
    (e : String) (h : checkArgs L m args = some e) :
    ∃ pre fl p post, m = pre ++ (fl, p) :: post ∧ (∀ q ∈ pre, ¬ flagFails args q) ∧
      ((p.required = true ∧ absentOrEmpty args fl ∧ e = p.errorMsg) ∨
       (¬ (p.required = true ∧ absentOrEmpty args fl) ∧ p.allowedValues ≠ [] ∧
          index args fl ∉ p.allowedValues ∧ e = L.Sprintf p.errorValMsg (index args fl))) := by
  induction m with
  | nil => simp [checkArgs] at h
  | cons q rest ih =>
    obtain ⟨fl, p⟩ := q
    by_cases hreq : p.required = true ∧ absentOrEmpty args fl
    · rw [checkArgs_cons_missing L fl p rest args hreq] at h
      exact ⟨[], fl, p, rest, rfl, by simp, Or.inl ⟨hreq.1, hreq.2, (Option.some.inj h).symm⟩⟩
    · by_cases hval : p.allowedValues ≠ [] ∧ index args fl ∉ p.allowedValues
      · rw [checkArgs_cons_invalid L fl p rest args hreq hval.1 hval.2] at h
        exact ⟨[], fl, p, rest, rfl, by simp,
          Or.inr ⟨hreq, hval.1, hval.2, (Option.some.inj h).symm⟩⟩
      · have hpass : ¬ flagFails args (fl, p) := by
          rintro (hc | hc)
          · exact hreq hc
          · exact hval hc
        rw [checkArgs_cons_pass L fl p rest args hpass] at h
        obtain ⟨pre, fl1, p1, post, hm, hpre, hcase⟩ := ih h
        refine ⟨(fl, p) :: pre, fl1, p1, post, by simp [hm], ?_, hcase⟩
        intro q hq
        rcases List.mem_cons.mp hq with rfl | hq
        · exact hpass
        · exact hpre q hq

theorem checkArgs_eq_none_iff (L : GoStd) (m : List (String × flagParams)) (args : Arguments) :
    checkArgs L m args = none ↔ ∀ q ∈ m, ¬ flagFails args q := by
  induction m with
  | nil => simp [checkArgs]
  | cons q rest ih =>
    obtain ⟨fl, p⟩ := q
    by_cases hf : flagFails args (fl, p)
    · have hne : checkArgs L ((fl, p) :: rest) args ≠ none := by
        by_cases hreq : p.required = true ∧ absentOrEmpty args fl
        · rw [checkArgs_cons_missing L fl p rest args hreq]; simp
        · rcases hf with hc | hc
          · exact absurd hc hreq
          · rw [checkArgs_cons_invalid L fl p rest args hreq hc.1 hc.2]; simp
      constructor
      · intro h; exact absurd h hne
      · intro h; exact absurd hf (h (fl, p) (List.mem_cons_self _ _))
    · rw [checkArgs_cons_pass L fl p rest args hf, ih]
      constructor
      · intro h q hq
        rcases List.mem_cons.mp hq with rfl | hq
        · exact hf
        · exact h q hq
      · intro h q hq
        exact h q (List.mem_cons_of_mem _ hq)

/-- In the shipped table, with a file name supplied, the only entry that can
reject the arguments is the one of the operation flag. -/
theorem shipped_failing_entry (args : Arguments) (q : String × flagParams)
    (hq : q ∈ flags) (hfile : ¬ absentOrEmpty args filenameFlag) (hf : flagFails args q) :
    q.1 = operationFlag ∧ q.2.errorMsg = "-operation flag has to be specified" ∧
    q.2.errorValMsg = "Operation %s not allowed!" ∧ q.2.required = true ∧
    q.2.allowedValues = [operationList, operationAdd, operationRemove, operationFindById] := by
  simp only [flags, List.mem_cons, List.mem_singleton, List.not_mem_nil, or_false] at hq
  rcases hq with rfl | rfl | rfl | rfl
  · exact ⟨rfl, rfl, rfl, rfl, rfl⟩
  · rcases hf with hc | hc
    · exact absurd hc.1 (by decide)
    · exact absurd rfl hc.1
  · rcases hf with hc | hc
    · exact absurd hc.2 hfile
    · exact absurd rfl hc.1
  · rcases hf with hc | hc
    · exact absurd hc.1 (by decide)
    · exact absurd rfl hc.1

theorem operation_entry_mem :
    (operationFlag,
      ({ defaultValue := "no", usage := "add user item to dataset", required := true,
         allowedValues := [operationList, operationAdd, operationRemove, operationFindById],
         errorMsg := "-operation flag has to be specified",
         errorValMsg := "Operation %s not allowed!" } : flagParams)) ∈ flags := by
  simp [flags]

/-- Under every visiting order of the shipped table, with a file name
supplied: a missing or empty operation gives the missing-operation message. -/
theorem shipped_operation_missing (L : GoStd) (order : List (String × flagParams))
    (args : Arguments) (hperm : order.Perm flags)
    (hfile : ¬ absentOrEmpty args filenameFlag) (hop : absentOrEmpty args operationFlag) :
    checkArgs L order args = some "-operation flag has to be specified" := by
  cases hres : checkArgs L order args with
  | none =>
    exfalso
    have hall := (checkArgs_eq_none_iff L order args).mp hres
    exact hall _ (hperm.mem_iff.mpr operation_entry_mem) (Or.inl ⟨rfl, hop⟩)
  | some e =>
    obtain ⟨pre, fl, p, post, hm, _, hcase⟩ := checkArgs_some_split L order args e hres
    have hmem : (fl, p) ∈ flags := hperm.mem_iff.mp (by simp [hm])
    have hfails : flagFails args (fl, p) := by
      rcases hcase with hc | hc
      · exact Or.inl ⟨hc.1, hc.2.1⟩
      · exact Or.inr ⟨hc.2.1, hc.2.2.1⟩
    obtain ⟨hfl, hmsg, _, hreq, _⟩ := shipped_failing_entry args (fl, p) hmem hfile hfails
    simp only at hfl hmsg hreq
    rcases hcase with hc | hc
    · rw [hc.2.2, hmsg]
    · exact absurd ⟨hreq, hfl ▸ hop⟩ hc.1

/-- Under every visiting order of the shipped table, with a file name
supplied: a non-empty operation outside the allowed set gives the
invalid-value message formatted with it. -/
theorem shipped_operation_invalid (L : GoStd) (order : List (String × flagParams))
    (args : Arguments) (hperm : order.Perm flags)
    (hfile : ¬ absentOrEmpty args filenameFlag) (hop : ¬ absentOrEmpty args operationFlag)
    (hbad : index args operationFlag ∉
      [operationList, operationAdd, operationRemove, operationFindById]) :
    checkArgs L order args
      = some (L.Sprintf "Operation %s not allowed!" (index args operationFlag)) := by
  cases hres : checkArgs L order args with
  | none =>
    exfalso
    have hall := (checkArgs_eq_none_iff L order args).mp hres
    exact hall _ (hperm.mem_iff.mpr operation_entry_mem)
      (Or.inr ⟨by simp, hbad⟩)
  | some e =>
    obtain ⟨pre, fl, p, post, hm, _, hcase⟩ := checkArgs_some_split L order args e hres
    have hmem : (fl, p) ∈ flags := hperm.mem_iff.mp (by simp [hm])
    have hfails : flagFails args (fl, p) := by
      rcases hcase with hc | hc
      · exact Or.inl ⟨hc.1, hc.2.1⟩
      · exact Or.inr ⟨hc.2.1, hc.2.2.1⟩
    obtain ⟨hfl, _, hval, _, _⟩ := shipped_failing_entry args (fl, p) hmem hfile hfails
    simp only at hfl hval
    rcases hcase with hc | hc
    · exact absurd (hfl ▸ hc.2.1) hop
    · rw [hc.2.2.2, hval, hfl]

/-! ### The flag-level check: claim C8 -/

/-- C8: for every flag table, visited in any order, and every argument map,
`checkArgs` returns an error exactly when some entry is required and absent
or empty, or has a non-empty allowed set without the supplied value; the
error is the one of the first such entry visited: its missing-value message
when it is required and missing, otherwise its invalid-value message
formatted with the supplied value. For the shipped table under every
visiting order, with a non-empty file name: a missing or empty operation
gives "-operation flag has to be specified", and a non-empty operation X
outside list, add, remove, findById gives "Operation X not allowed!"
whenever `Sprintf` renders the `%s` format with X as that text. -/
theorem C8_checkArgs_spec (L : GoStd) (m : List (String × flagParams)) (args : Arguments) :
    (checkArgs L m args ≠ none ↔ ∃ q ∈ m, flagFails args q) ∧
    (∀ e, checkArgs L m args = some e →
      ∃ pre fl p post, m = pre ++ (fl, p) :: post ∧ (∀ q ∈ pre, ¬ flagFails args q) ∧
        ((p.required = true ∧ absentOrEmpty args fl ∧ e = p.errorMsg) ∨
         (¬ (p.required = true ∧ absentOrEmpty args fl) ∧ p.allowedValues ≠ [] ∧
            index args fl ∉ p.allowedValues ∧
            e = L.Sprintf p.errorValMsg (index args fl)))) ∧
    (∀ order : List (String × flagParams), order.Perm flags →
      ¬ absentOrEmpty args filenameFlag →
      (absentOrEmpty args operationFlag →
        checkArgs L order args = some "-operation flag has to be specified") ∧
      (∀ X, args.lookup operationFlag = some X → X ≠ "" →
        X ∉ [operationList, operationAdd, operationRemove, operationFindById] →
        L.Sprintf "Operation %s not allowed!" X = "Operation " ++ X ++ " not allowed!" →
        checkArgs L order args = some ("Operation " ++ X ++ " not allowed!"))) := by
  refine ⟨?_, checkArgs_some_split L m args, ?_⟩
  · rw [Ne, checkArgs_eq_none_iff]
    constructor
    · intro h
      by_contra hc
      exact h (fun q hq hf => hc ⟨q, hq, hf⟩)
    · rintro ⟨q, hq, hf⟩ h
      exact h q hq hf
  · intro order hperm hfile
    refine ⟨shipped_operation_missing L order args hperm hfile, ?_⟩
    intro X hX hne hbad hfmt
    have hidx : index args operationFlag = X := by simp [index, hX]
    have hop : ¬ absentOrEmpty args operationFlag := by
      rw [absentOrEmpty_iff_index, hidx]
      exact hne
    rw [shipped_operation_invalid L order args hperm hfile hop (hidx ▸ hbad), hidx, hfmt]

/-- Witness of C8: the shipped table visited in reverse order, a file name
supplied; without an operation the missing-operation message comes back, and
with the operation "delete" the invalid-value message formatted with it. -/
theorem C8_checkArgs_spec_witness :
    checkArgs goStd flags.reverse [("fileName", "users.json")]
      = some "-operation flag has to be specified" ∧
    checkArgs goStd flags.reverse [("operation", "delete"), ("fileName", "users.json")]
      = some "Operation delete not allowed!" :=
  ⟨((C8_checkArgs_spec goStd flags [("fileName", "users.json")]).2.2 flags.reverse
      (List.reverse_perm flags) (by decide)).1 (by decide),
   ((C8_checkArgs_spec goStd flags
      [("operation", "delete"), ("fileName", "users.json")]).2.2 flags.reverse
      (List.reverse_perm flags) (by decide)).2 "delete" (by decide) (by decide) (by decide)
      (by decide)⟩

/-! ### The operation-level check: claim C9 -/

theorem checkOpLoop_cons_missing (arg : Arguments) (f : String) (fs : List String)
    (h : absentOrEmpty arg f) :
    checkOpLoop arg (f :: fs) = some ("-" ++ f ++ " flag has to be specified") := by
  simp only [checkOpLoop, (absentOrEmpty_iff arg f).mpr h, if_true]

theorem checkOpLoop_cons_present (arg : Arguments) (f : String) (fs : List String)
    (h : ¬ absentOrEmpty arg f) :
    checkOpLoop arg (f :: fs) = checkOpLoop arg fs := by
  have h1 : (!(has arg f) || (index arg f).length == 0) = false := by
    rw [Bool.eq_false_iff]
    exact fun hc => h ((absentOrEmpty_iff arg f).mp hc)
  simp only [checkOpLoop, h1]
  simp

theorem checkOpLoop_eq_none_iff (arg : Arguments) (l : List String) :
    checkOpLoop arg l = none ↔ ∀ f ∈ l, ¬ absentOrEmpty arg f := by
  induction l with
  | nil => simp [checkOpLoop]
  | cons a t ih =>
    by_cases h : absentOrEmpty arg a
    · rw [checkOpLoop_cons_missing arg a t h]
      constructor
      · intro hc; exact absurd hc (by simp)
      · intro hc; exact absurd h (hc a (List.mem_cons_self a t))
    · rw [checkOpLoop_cons_present arg a t h, ih]
      constructor
      · intro hc f hf
        rcases List.mem_cons.mp hf with rfl | hf
        · exact h
        · exact hc f hf
      · intro hc f hf
        exact hc f (List.mem_cons_of_mem a hf)

theorem checkOpLoop_first (arg : Arguments) (pre : List String) (f : String)
    (post : List String) (hpre : ∀ g ∈ pre, ¬ absentOrEmpty arg g) (hf : absentOrEmpty arg f) :
    checkOpLoop arg (pre ++ f :: post) = some ("-" ++ f ++ " flag has to be specified") := by
  induction pre with
  | nil => exact checkOpLoop_cons_missing arg f post hf
  | cons a t ih =>
    rw [List.cons_append, checkOpLoop_cons_present arg a _ (hpre a (List.mem_cons_self a t))]
    exact ih (fun g hg => hpre g (List.mem_cons_of_mem a hg))

/-- C9: for every argument map and operation-to-required-flags map,
`checkOpArgs` returns an error exactly when some flag listed for the requested
operation is absent or empty, and the error is
"-<flag> flag has to be specified" for the first such flag in list order.
With the shipped map: add requires item, remove and findById require id, and
every other operation value, list among them, passes. -/
theorem C9_checkOpArgs_spec (arg : Arguments) (m : opArgMap) :
    (checkOpArgs arg m ≠ none ↔
      ∃ f ∈ (m.lookup (index arg operationFlag)).getD [], absentOrEmpty arg f) ∧
    (∀ pre f post, (m.lookup (index arg operationFlag)).getD [] = pre ++ f :: post →
      (∀ g ∈ pre, ¬ absentOrEmpty arg g) → absentOrEmpty arg f →
      checkOpArgs arg m = some ("-" ++ f ++ " flag has to be specified")) ∧
    (index arg operationFlag = "add" →
      checkOpArgs arg opRequiredFlagsMap =
        if absentOrEmpty arg "item" then some "-item flag has to be specified" else none) ∧
    (index arg operationFlag = "remove" ∨ index arg operationFlag = "findById" →
      checkOpArgs arg opRequiredFlagsMap =
        if absentOrEmpty arg "id" then some "-id flag has to be specified" else none) ∧
    (index arg operationFlag ≠ "add" → index arg operationFlag ≠ "remove" →
      index arg operationFlag ≠ "findById" →
      checkOpArgs arg opRequiredFlagsMap = none) := by
  have hone : ∀ f : String, checkOpLoop arg [f] =
      if absentOrEmpty arg f then some ("-" ++ f ++ " flag has to be specified") else none := by
    intro f
    by_cases h : absentOrEmpty arg f
    · rw [checkOpLoop_cons_missing arg f [] h, if_pos h]
    · rw [checkOpLoop_cons_present arg f [] h, if_neg h]
      rfl
  refine ⟨?_, ?_, ?_, ?_, ?_⟩
  · unfold checkOpArgs
    rw [Ne, checkOpLoop_eq_none_iff]
    constructor
    · intro h
      by_contra hc
      exact h (fun f hf hfa => hc ⟨f, hf, hfa⟩)
    · rintro ⟨f, hf, hfa⟩ h
      exact h f hf hfa
  · intro pre f post hl hpre hf
    unfold checkOpArgs
    simp only [hl]
    exact checkOpLoop_first arg pre f post hpre hf
  · intro hop
    have hl : List.lookup (index arg operationFlag) opRequiredFlagsMap = some ["item"] := by
      rw [hop]
      decide
    unfold checkOpArgs
    simp only [hl, Option.getD_some]
    exact hone "item"
  · intro hop
    have hl : List.lookup (index arg operationFlag) opRequiredFlagsMap = some ["id"] := by
      rcases hop with hop | hop <;> rw [hop] <;> decide
    unfold checkOpArgs
    simp only [hl, Option.getD_some]
    exact hone "id"
  · intro h1 h2 h3
    have hl : List.lookup (index arg operationFlag) opRequiredFlagsMap = none := by
      have e1 : (index arg operationFlag == "add") = false := beq_eq_false_iff_ne.mpr h1
      have e2 : (index arg operationFlag == "remove") = false := beq_eq_false_iff_ne.mpr h2
      have e3 : (index arg operationFlag == "findById") = false := beq_eq_false_iff_ne.mpr h3
      simp only [opRequiredFlagsMap, List.lookup, operationAdd, operationRemove,
        operationFindById, e1, e2, e3]
    unfold checkOpArgs
    simp only [hl, Option.getD_none]
    rfl

/-- Witness of C9: with the shipped map, remove without id is rejected with
the message naming id, and list passes. -/
theorem C9_checkOpArgs_spec_witness :
    checkOpArgs [("operation", "remove"), ("fileName", "users.json")] opRequiredFlagsMap
      = some "-id flag has to be specified" ∧
    checkOpArgs [("operation", "list"), ("fileName", "users.json")] opRequiredFlagsMap = none :=
  ⟨((C9_checkOpArgs_spec [("operation", "remove"), ("fileName", "users.json")]
      opRequiredFlagsMap).2.2.2.1 (Or.inl (by decide))).trans (by decide),
   (C9_checkOpArgs_spec [("operation", "list"), ("fileName", "users.json")]
      opRequiredFlagsMap).2.2.2.2 (by decide) (by decide) (by decide)⟩

/-! ### Validation gates the dispatcher: claim C10 -/

/-- C10: when the flag-level check rejects the arguments `Perform` returns its
error, and when it accepts them but the operation-level check rejects them
`Perform` returns that one; in both cases nothing is written to the output
sink and the world is left as it was: no file opened, created, read or
written, no storage event logged. In particular, under every visiting order
of the shipped table, with the operation flag missing `Perform` returns a
missing-flag error, the one of the operation flag whenever a file name is
supplied, and the file named in the arguments is as absent or as present as
before. -/
theorem C10_Perform_validation_gate (L : GoStd) (order : List (String × flagParams))
    (args : Arguments) (writer : List String) (w : World) :
    (∀ e, checkArgs L order args = some e →
      Perform L order args writer w = some { world := w, out := writer, err := some e }) ∧
    (∀ e, checkArgs L order args = none → checkOpArgs args opRequiredFlagsMap = some e →
      Perform L order args writer w = some { world := w, out := writer, err := some e }) ∧
    (order.Perm flags → args.lookup operationFlag = none →
      ∃ e, (e = "-operation flag has to be specified" ∨ e = "-fileName flag has to be specified") ∧
        (¬ absentOrEmpty args filenameFlag → e = "-operation flag has to be specified") ∧
        Perform L order args writer w = some { world := w, out := writer, err := some e }) := by
  have h1 : ∀ e, checkArgs L order args = some e →
      Perform L order args writer w = some { world := w, out := writer, err := some e } := by
    intro e he
    simp only [Perform, he]
  refine ⟨h1, ?_, ?_⟩
  · intro e hc he
    simp only [Perform, hc, he]
  · intro hperm hop
    have hopA : absentOrEmpty args operationFlag := Or.inl hop
    cases hres : checkArgs L order args with
    | none =>
      exfalso
      have hall := (checkArgs_eq_none_iff L order args).mp hres
      exact hall _ (hperm.mem_iff.mpr operation_entry_mem) (Or.inl ⟨rfl, hopA⟩)
    | some e =>
      refine ⟨e, ?_, ?_, h1 e hres⟩
      · obtain ⟨pre, fl, p, post, hm, _, hcase⟩ := checkArgs_some_split L order args e hres
        have hmem : (fl, p) ∈ flags := hperm.mem_iff.mp (by simp [hm])
        simp only [flags, List.mem_cons, List.mem_singleton, List.not_mem_nil, or_false,
          Prod.mk.injEq] at hmem
        rcases hmem with ⟨rfl, rfl⟩ | ⟨rfl, rfl⟩ | ⟨rfl, rfl⟩ | ⟨rfl, rfl⟩
        · rcases hcase with hc | hc
          · exact Or.inl hc.2.2
          · exact absurd ⟨rfl, hopA⟩ hc.1
        · rcases hcase with hc | hc
          · exact absurd hc.1 (by decide)
          · exact absurd rfl hc.2.1
        · rcases hcase with hc | hc
          · exact Or.inr hc.2.2
          · exact absurd rfl hc.2.1
        · rcases hcase with hc | hc
          · exact absurd hc.1 (by decide)
          · exact absurd rfl hc.2.1
      · intro hfile
        have := shipped_operation_missing L order args hperm hfile hopA
        rw [hres] at this
        exact Option.some.inj this

/-- Witness of C10: on a world without files, `Perform` without an operation
returns the missing-operation error, writes nothing, and the file named in
the arguments is still absent and no storage event was logged. -/
theorem C10_Perform_validation_gate_witness :
    ∃ r, Perform goStd flags [("fileName", "users.json")] [] emptyWorld = some r ∧
      r.err = some "-operation flag has to be specified" ∧ r.out = [] ∧
      r.world.files "users.json" = none ∧ r.world.trace = [] :=
  ⟨{ world := emptyWorld, out := [], err := some "-operation flag has to be specified" },
    (C10_Perform_validation_gate goStd flags [("fileName", "users.json")] [] emptyWorld).1
      "-operation flag has to be specified" (by decide),
    rfl, rfl, rfl, rfl⟩

/-! ### Save then Load: claim C7 -/

theorem string_mk_data (p : String) : String.mk p.data = p := rfl

/-- `Save` through the file-backed factory leaves the named file holding
exactly the encoding of the collection, whatever it held before, and returns
the receiver unchanged. -/
theorem Save_file (L : GoStd) (ul : UserList) (name : String) (w : World)
    (hds : ul.datasource = some (createDS fileDataSource name))
    (hopen : w.openFails name = false) :
    ∃ w1, ul.Save L w = some (w1, ul) ∧
      w1.files name = some (L.MarshalUsers ul.list) ∧
      w1.openFails = w.openFails ∧
      ∀ n, n ≠ name → w1.files n = w.files n := by
  cases hres : ul.Save L w with
  | none =>
    simp [UserList.Save, hds, createDS, fileDataSource, hopen] at hres
  | some r =>
    obtain ⟨w1, u1⟩ := r
    simp only [UserList.Save, hds, createDS, fileDataSource, hopen, Bool.false_eq_true,
      if_false, fileDS.Reset, fileDS.Write, Option.some.injEq, Prod.mk.injEq] at hres
    obtain ⟨rfl, rfl⟩ := hres
    refine ⟨_, rfl, ?_, ?_, ?_⟩
    · cases hf : w.files name <;>
        simp [fileDS.Close, World.log, World.setFile, World.content, string_mk_data]
    · cases hf : w.files name <;> simp [fileDS.Close, World.log, World.setFile]
    · intro n hn
      cases hf : w.files name <;> simp [fileDS.Close, World.log, World.setFile, hn]

/-- `Load` through the file-backed factory on an existing file decodes the
whole content of the file into the collection and leaves every file as it
was. -/
theorem Load_file (L : GoStd) (ul : UserList) (name : String) (w : World) (data : String)
    (hds : ul.datasource = some (createDS fileDataSource name))
    (hopen : w.openFails name = false) (hfile : w.files name = some data) :
    ∃ w1, ul.Load L w = some (w1, { ul with list := L.UnmarshalUsers data ul.list }) ∧
      w1.files = w.files := by
  cases hres : ul.Load L w with
  | none =>
    simp [UserList.Load, hds, createDS, fileDataSource, hopen] at hres
  | some r =>
    obtain ⟨w1, u1⟩ := r
    simp only [UserList.Load, hds, createDS, fileDataSource, hopen, Bool.false_eq_true,
      if_false, hfile, fileDS.ReadAll, World.content, World.log, Option.getD_some,
      List.drop_zero, string_mk_data, Option.some.injEq, Prod.mk.injEq] at hres
    obtain ⟨rfl, rfl⟩ := hres
    rw [hds]
    exact ⟨_, rfl, rfl⟩

/-- C7: for a store bound to the file-backed storage of a path that can be
opened, and a collection that the JSON library decodes back from its own
encoding, `Save` followed by `Load` from the same storage, into the same
store or into any other store bound to that storage, succeeds and yields a
collection equal to the saved one: the same records in the same order with
the same id, email and age values. The file holds exactly the encoding,
whatever it held before. -/
theorem C7_save_load_roundtrip (L : GoStd) (ul ul0 : UserList) (name : String) (w : World)
    (hds : ul.datasource = some (createDS fileDataSource name))
    (hds0 : ul0.datasource = some (createDS fileDataSource name))
    (hopen : w.openFails name = false)
    (hcodec : L.UnmarshalUsers (L.MarshalUsers ul.list) ul0.list = ul.list) :
    ∃ w1 w2 loaded, ul.Save L w = some (w1, ul) ∧
      w1.files name = some (L.MarshalUsers ul.list) ∧
      ul0.Load L w1 = some (w2, loaded) ∧
      loaded.list = ul.list ∧ loaded.datasource = ul0.datasource ∧
      w2.files name = some (L.MarshalUsers ul.list) := by
  obtain ⟨w1, hsave, hfile, hfails, _⟩ := Save_file L ul name w hds hopen
  have hopen1 : w1.openFails name = false := by rw [hfails]; exact hopen
  obtain ⟨w2, hload, hfiles⟩ := Load_file L ul0 name w1 _ hds0 hopen1 hfile
  exact ⟨w1, w2, _, hsave, hfile, hload, hcodec, rfl, by rw [hfiles]; exact hfile⟩

/-- Witness of C7: two records, one with characters the encoder escapes, saved
over a file holding longer stale text and loaded back into the same store. -/
theorem C7_save_load_roundtrip_witness :
    ∃ w1 w2 loaded,
      (UserList.mk (some (createDS fileDataSource "users.json"))
          (some [⟨"1", "a<b>@\"c\".com", 30⟩, ⟨"2", "", 255⟩])).Save goStd
        (emptyWorld.setFile "users.json" (String.mk (List.replicate 200 'x')))
        = some (w1, UserList.mk (some (createDS fileDataSource "users.json"))
            (some [⟨"1", "a<b>@\"c\".com", 30⟩, ⟨"2", "", 255⟩])) ∧
      w1.files "users.json" = some (goStd.MarshalUsers
        (some [⟨"1", "a<b>@\"c\".com", 30⟩, ⟨"2", "", 255⟩])) ∧
      (UserList.mk (some (createDS fileDataSource "users.json"))
          (some [⟨"1", "a<b>@\"c\".com", 30⟩, ⟨"2", "", 255⟩])).Load goStd w1
        = some (w2, loaded) ∧
      loaded.list = some [⟨"1", "a<b>@\"c\".com", 30⟩, ⟨"2", "", 255⟩] ∧
      loaded.datasource = some (createDS fileDataSource "users.json") ∧
      w2.files "users.json" = some (goStd.MarshalUsers
        (some [⟨"1", "a<b>@\"c\".com", 30⟩, ⟨"2", "", 255⟩])) :=
  C7_save_load_roundtrip goStd
    (UserList.mk (some (createDS fileDataSource "users.json"))
      (some [⟨"1", "a<b>@\"c\".com", 30⟩, ⟨"2", "", 255⟩]))
    (UserList.mk (some (createDS fileDataSource "users.json"))
      (some [⟨"1", "a<b>@\"c\".com", 30⟩, ⟨"2", "", 255⟩]))
    "users.json" (emptyWorld.setFile "users.json" (String.mk (List.replicate 200 'x')))
    rfl rfl rfl (by decide)

/-! ### The concrete library decodes what it encodes -/

theorem sprintf_operation (x : String) :
    goStd.Sprintf "Operation %s not allowed!" x = "Operation " ++ x ++ " not allowed!" := by
  show String.mk (sprintfLoop "Operation %s not allowed!".data (some x)) = _
  have hd : "Operation %s not allowed!".data
      = ['O', 'p', 'e', 'r', 'a', 't', 'i', 'o', 'n', ' ', '%', 's', ' ', 'n', 'o', 't', ' ',
          'a', 'l', 'l', 'o', 'w', 'e', 'd', '!'] := by decide
  rw [hd]
  apply String.ext
  simp [sprintfLoop]

theorem hexVal_hexDigit (k : Nat) (hk : k < 16) : hexVal (hexDigit k) = some k := by
  interval_cases k <;> decide

theorem decodeAge_repr (a : Fin 256) (rest : List Char) :
    decodeAge ((Nat.repr a.val).data ++ '}' :: rest) = some (a, '}' :: rest) := by
  obtain ⟨n, hn⟩ := a
  interval_cases n <;> (dsimp only; rfl)

theorem expect_append (lit cs : List Char) : expect lit (lit ++ cs) = some cs := by
  induction lit with
  | nil => cases cs <;> rfl
  | cons a t ih => simp [expect, ih]

theorem decodeBody_quote (rest : List Char) :
    decodeBody (quoteChar :: rest) = some ([], rest) := by
  rw [decodeBody.eq_def]
  simp only [if_true]

theorem decodeBody_simple (e ch : Char) (tail t rest : List Char)
    (he : unescape e = some ch) (hu : e ≠ 'u')
    (ih : decodeBody tail = some (t, rest)) :
    decodeBody (backslashChar :: e :: tail) = some (ch :: t, rest) := by
  have hbq : backslashChar ≠ quoteChar := by decide
  rw [decodeBody.eq_def]
  simp only [hbq, hu, he, ih, if_false, if_true]

theorem decodeBody_hex (a b c d : Char) (x y z v : Nat) (tail t rest : List Char)
    (ha : hexVal a = some x) (hb : hexVal b = some y) (hc : hexVal c = some z)
    (hd : hexVal d = some v) (hvalid : (((x * 16 + y) * 16 + z) * 16 + v).isValidChar)
    (ih : decodeBody tail = some (t, rest)) :
    decodeBody (backslashChar :: 'u' :: a :: b :: c :: d :: tail)
      = some (Char.ofNat (((x * 16 + y) * 16 + z) * 16 + v) :: t, rest) := by
  have hbq : backslashChar ≠ quoteChar := by decide
  rw [decodeBody.eq_def]
  simp only [hbq, ha, hb, hc, hd, hvalid, ih, if_false, if_true]

theorem decodeBody_plain (c : Char) (tail t rest : List Char)
    (h1 : c ≠ quoteChar) (h2 : c ≠ backslashChar) (h3 : ¬ c.toNat < 32)
    (ih : decodeBody tail = some (t, rest)) :
    decodeBody (c :: tail) = some (c :: t, rest) := by
  rw [decodeBody.eq_def]
  simp only [h1, h2, h3, ih, if_false]

theorem char_eq_ofNat (c : Char) (n : Nat) (h : c.toNat = n) : Char.ofNat n = c := by
  rw [← h]
  exact Char.ofNat_toNat c

theorem decodeBody_escapeChar (c : Char) (tail t rest : List Char)
    (ih : decodeBody tail = some (t, rest)) :
    decodeBody (escapeChar c ++ tail) = some (c :: t, rest) := by
  have e1 : unescape quoteChar = some quoteChar := by decide
  have e2 : unescape backslashChar = some backslashChar := by decide
  have e3 : unescape 'b' = some (Char.ofNat 8) := by decide
  have e4 : unescape 'f' = some (Char.ofNat 12) := by decide
  have e5 : unescape 'n' = some (Char.ofNat 10) := by decide
  have e6 : unescape 'r' = some (Char.ofNat 13) := by decide
  have e7 : unescape 't' = some (Char.ofNat 9) := by decide
  have n1 : quoteChar ≠ 'u' := by decide
  have n2 : backslashChar ≠ 'u' := by decide
  have n3 : 'b' ≠ 'u' := by decide
  have n4 : 'f' ≠ 'u' := by decide
  have n5 : 'n' ≠ 'u' := by decide
  have n6 : 'r' ≠ 'u' := by decide
  have n7 : 't' ≠ 'u' := by decide
  have hv0 : hexVal '0' = some 0 := by decide
  have hv2 : hexVal '2' = some 2 := by decide
  have hv8 : hexVal '8' = some 8 := by decide
  have hv9 : hexVal '9' = some 9 := by decide
  have va : (((2 * 16 + 0) * 16 + 2) * 16 + 8).isValidChar := by decide
  have vb : (((2 * 16 + 0) * 16 + 2) * 16 + 9).isValidChar := by decide
  unfold escapeChar
  by_cases h1 : c = quoteChar
  · rw [if_pos h1]
    have := decodeBody_simple quoteChar quoteChar tail t rest e1 n1 ih
    rw [h1]
    exact this
  rw [if_neg h1]
  by_cases h2 : c = backslashChar
  · rw [if_pos h2]
    have := decodeBody_simple backslashChar backslashChar tail t rest e2 n2 ih
    rw [h2]
    exact this
  rw [if_neg h2]
  by_cases h3 : c.toNat = 8
  · rw [if_pos h3]
    have := decodeBody_simple 'b' (Char.ofNat 8) tail t rest e3 n3 ih
    rw [char_eq_ofNat c 8 h3] at this
    exact this
  rw [if_neg h3]
  by_cases h4 : c.toNat = 12
  · rw [if_pos h4]
    have := decodeBody_simple 'f' (Char.ofNat 12) tail t rest e4 n4 ih
    rw [char_eq_ofNat c 12 h4] at this
    exact this
  rw [if_neg h4]
  by_cases h5 : c.toNat = 10
  · rw [if_pos h5]
    have := decodeBody_simple 'n' (Char.ofNat 10) tail t rest e5 n5 ih
    rw [char_eq_ofNat c 10 h5] at this
    exact this
  rw [if_neg h5]
  by_cases h6 : c.toNat = 13
  · rw [if_pos h6]
    have := decodeBody_simple 'r' (Char.ofNat 13) tail t rest e6 n6 ih
    rw [char_eq_ofNat c 13 h6] at this
    exact this
  rw [if_neg h6]
  by_cases h7 : c.toNat = 9
  · rw [if_pos h7]
    have := decodeBody_simple 't' (Char.ofNat 9) tail t rest e7 n7 ih
    rw [char_eq_ofNat c 9 h7] at this
    exact this
  rw [if_neg h7]
  by_cases h8 : c.toNat < 32 ∨ c = '<' ∨ c = '>' ∨ c = '&'
  · rw [if_pos h8]
    have hlt : c.toNat < 128 := by
      rcases h8 with h | h | h | h
      · omega
      · rw [h]; decide
      · rw [h]; decide
      · rw [h]; decide
    have hsum : ((0 * 16 + 0) * 16 + c.toNat / 16) * 16 + c.toNat % 16 = c.toNat := by omega
    have := decodeBody_hex '0' '0' (hexDigit (c.toNat / 16)) (hexDigit (c.toNat % 16))
      0 0 (c.toNat / 16) (c.toNat % 16) tail t rest hv0 hv0
      (hexVal_hexDigit _ (by omega)) (hexVal_hexDigit _ (by omega))
      (by rw [hsum]; exact Or.inl (by omega)) ih
    rw [hsum, Char.ofNat_toNat] at this
    exact this
  rw [if_neg h8]
  by_cases h9 : c.toNat = 8232
  · rw [if_pos h9]
    have := decodeBody_hex '2' '0' '2' '8' 2 0 2 8 tail t rest hv2 hv0 hv2 hv8 va ih
    rw [char_eq_ofNat c 8232 h9] at this
    exact this
  rw [if_neg h9]
  by_cases h10 : c.toNat = 8233
  · rw [if_pos h10]
    have := decodeBody_hex '2' '0' '2' '9' 2 0 2 9 tail t rest hv2 hv0 hv2 hv9 vb ih
    rw [char_eq_ofNat c 8233 h10] at this
    exact this
  rw [if_neg h10]
  exact decodeBody_plain c tail t rest h1 h2 (fun h => h8 (Or.inl h)) ih

theorem decodeBody_escapeAll (s rest : List Char) :
    decodeBody (escapeAll s ++ quoteChar :: rest) = some (s, rest) := by
  induction s with
  | nil => exact decodeBody_quote rest
  | cons c t ih =>
    rw [escapeAll, List.append_assoc]
    exact decodeBody_escapeChar c _ t rest ih

theorem encodeUser_append (u : User) (rest : List Char) :
    encodeUser u ++ rest
      = "\x7b\"id\":\"".data ++ (escapeAll u.Id.data ++ quoteChar ::
          (",\"email\":\"".data ++ (escapeAll u.Email.data ++ quoteChar ::
            (",\"age\":".data ++ ((Nat.repr u.Age.val).data ++ '}' :: rest))))) := by
  have h1 : "\x7b\"id\":\"".data = "\x7b\"id\":".data ++ [quoteChar] := by decide
  have h2 : ",\"email\":\"".data = ",\"email\":".data ++ [quoteChar] := by decide
  have h3 : "\x7d".data = ['}'] := by decide
  rw [h1, h2]
  simp only [encodeUser, encodeString, h3, List.append_assoc, List.cons_append,
    List.nil_append, List.singleton_append]

theorem decodeUserAt_encodeUser (u : User) (rest : List Char) :
    decodeUserAt (encodeUser u ++ rest) = some (u, rest) := by
  have h3 : "\x7d".data = ['}'] := by decide
  have hexp : expect "\x7d".data ('}' :: rest) = some rest := by
    rw [h3]
    simp [expect]
  rw [encodeUser_append]
  simp only [decodeUserAt, expect_append, decodeBody_escapeAll, decodeAge_repr, hexp]

theorem encodeUser_cons (u : User) : ∃ cs, encodeUser u = Char.ofNat 123 :: cs := by
  have h1 : "\x7b\"id\":".data = Char.ofNat 123 :: "\"id\":".data := by decide
  exact ⟨_, by simp only [encodeUser, h1, List.cons_append]; rfl⟩

theorem decodeElems_encode (fuel : Nat) (u : User) (us : List User) (h : us.length < fuel) :
    decodeElems fuel (encodeUser u ++ encodeTail us) = some (u :: us) := by
  induction us generalizing fuel u with
  | nil =>
    obtain ⟨k, rfl⟩ : ∃ k, fuel = k + 1 := ⟨fuel - 1, by simp at h; omega⟩
    simp [decodeElems, decodeUserAt_encodeUser, encodeTail]
  | cons v vs ih =>
    obtain ⟨k, rfl⟩ : ∃ k, fuel = k + 1 := ⟨fuel - 1, by simp at h; omega⟩
    have hk : vs.length < k := by simp at h; omega
    obtain ⟨cs, hcs⟩ := encodeUser_cons v
    have hstep := ih k v hk
    simp only [decodeElems, decodeUserAt_encodeUser, encodeTail]
    rw [hcs] at hstep ⊢
    simp only [List.cons_append] at hstep ⊢
    simp [hstep]

theorem encodeTail_length (us : List User) : us.length < (encodeTail us).length := by
  induction us with
  | nil => simp [encodeTail]
  | cons v vs ih =>
    simp only [encodeTail, List.length_cons, List.length_append]
    omega

/-- The concrete decoder gives back every collection from its encoding,
whatever the destination held: nil from `null`, the empty slice from `[]`,
and the records in order from a non-empty array. -/
theorem goStd_roundtrip (l dst : UserSlice) :
    goStd.UnmarshalUsers (goStd.MarshalUsers l) dst = l := by
  show decodeUsers (String.mk (encodeUsers l)) dst = l
  match l with
  | none => rfl
  | some [] => rfl
  | some (u :: us) =>
    obtain ⟨cs, hcs⟩ := encodeUser_cons u
    have hfuel : us.length < (encodeUser u ++ encodeTail us).length := by
      have := encodeTail_length us
      simp only [List.length_append]
      omega
    have hdec := decodeElems_encode _ u us hfuel
    have hne1 : String.mk ('[' :: (encodeUser u ++ encodeTail us)) ≠ "null" := by
      intro hc
      have := congrArg String.data hc
      simp at this
    have hne2 : String.mk ('[' :: (encodeUser u ++ encodeTail us)) ≠ "[]" := by
      intro hc
      have := congrArg String.data hc
      rw [hcs] at this
      simp at this
    simp only [decodeUsers, encodeUsers, hne1, hne2, if_false, if_true, hdec]

/-- The concrete decoder gives back every user from its encoding. -/
theorem goStd_roundtrip_user (u dst : User) :
    goStd.UnmarshalUser (goStd.MarshalUser u) dst = u := by
  show decodeUser (String.mk (encodeUser u)) dst = u
  have := decodeUserAt_encodeUser u []
  simp only [List.append_nil] at this
  simp only [decodeUser, this]

/-- With the concrete library, for every collection and every world in which
the path can be opened, `Save` followed by `Load` into any store bound to the
same file yields the saved collection. -/
theorem goStd_save_load (ul ul0 : UserList) (name : String) (w : World)
    (hds : ul.datasource = some (createDS fileDataSource name))
    (hds0 : ul0.datasource = some (createDS fileDataSource name))
    (hopen : w.openFails name = false) :
    ∃ w1 w2 loaded, ul.Save goStd w = some (w1, ul) ∧
      ul0.Load goStd w1 = some (w2, loaded) ∧ loaded.list = ul.list := by
  obtain ⟨w1, hsave, hfile, hfails, _⟩ := Save_file goStd ul name w hds hopen
  have hopen1 : w1.openFails name = false := by rw [hfails]; exact hopen
  obtain ⟨w2, hload, _⟩ := Load_file goStd ul0 name w1 _ hds0 hopen1 hfile
  exact ⟨w1, w2, _, hsave, hload, goStd_roundtrip ul.list ul0.list⟩

/-! ### Remove after Remove, Remove after Add: claims C18 and C19 -/

/-- The exact slice the scan of `Remove` leaves at the first match. -/
theorem removeLoop_eq (id : String) (list : UserSlice) (pre : List User) (u : User)
    (post : List User) (done : List User)
    (hl : elems list = done ++ (pre ++ u :: post)) (hu : u.Id = id)
    (hpre : ∀ x ∈ pre, x.Id ≠ id) :
    removeLoop id list (pre ++ u :: post) done.length
      = goAppend (goAppend none (done ++ pre)) post := by
  induction pre generalizing done with
  | nil =>
    simp only [List.nil_append] at hl
    simp only [List.nil_append, removeLoop, hu, if_true, hl, List.append_nil]
    simp
  | cons a t ih =>
    have ha : a.Id ≠ id := hpre a (List.mem_cons_self a t)
    have ht : ∀ x ∈ t, x.Id ≠ id := fun x hx => hpre x (List.mem_cons_of_mem a hx)
    have := ih (done ++ [a]) (by simp [hl]) ht
    simp only [List.cons_append, removeLoop, ha, if_false]
    simpa using this

/-- `Remove` on a collection that holds the id: the split of the collection at
the first match, the value of the call and the slice it leaves. -/
theorem Remove_present_split (ul : UserList) (id : String)
    (h : ∃ u ∈ elems ul.list, u.Id = id) :
    ∃ pre u post, elems ul.list = pre ++ u :: post ∧ u.Id = id ∧
      (∀ x ∈ pre, x.Id ≠ id) ∧
      ul.Remove id =
        { recv := { ul with list := goAppend (goAppend none pre) post },
          ret := { ul with list := goAppend (goAppend none pre) post },
          err := none } := by
  obtain ⟨v, hv⟩ := (findLoop_isSome_iff id (elems ul.list)).mpr h
  obtain ⟨pre, post, hl, hvid, hpre⟩ := findLoop_some_split id _ v hv
  have hrem : removeLoop id ul.list (elems ul.list) 0 = goAppend (goAppend none pre) post := by
    have := removeLoop_eq id ul.list pre v post [] (by simpa using hl) hvid hpre
    rw [hl]
    simpa using this
  refine ⟨pre, v, post, hl, hvid, hpre, ?_⟩
  rw [Remove_of_found ul id v hv, hrem]

/-- C18: on a collection whose ids are pairwise distinct and that holds the
id, after `Remove` the ids are still pairwise distinct, no record has the id
any more, `FindById` returns the not-found error, and a second `Remove` of
the same id returns the not-found error and leaves the collection as the
first one left it. -/
theorem C18_Remove_really_removes (ul : UserList) (id : String)
    (hnd : ((elems ul.list).map User.Id).Nodup)
    (h : ∃ u ∈ elems ul.list, u.Id = id) :
    ((elems (ul.Remove id).recv.list).map User.Id).Nodup ∧
    (∀ u ∈ elems (ul.Remove id).recv.list, u.Id ≠ id) ∧
    ((ul.Remove id).recv.FindById id).2.2
      = some ("user with id = " ++ id ++ " is not found") ∧
    ((ul.Remove id).recv.Remove id).err = some ("Item with id " ++ id ++ " not found") ∧
    ((ul.Remove id).recv.Remove id).recv = (ul.Remove id).recv := by
  obtain ⟨pre, v, post, hl, hvid, hpre, hrem⟩ := Remove_present_split ul id h
  rw [hrem]
  have hel : elems (goAppend (goAppend none pre) post) = pre ++ post := by
    have hnil : elems (none : UserSlice) = [] := rfl
    rw [elems_goAppend, elems_goAppend, hnil, List.nil_append]
  rw [hl] at hnd
  simp only [List.map_append, List.map_cons] at hnd
  have hparts := List.nodup_append.mp hnd
  have hpost : ∀ x ∈ post, x.Id ≠ id := by
    intro x hx hxid
    have hc := (List.nodup_cons.mp hparts.2.1).1
    exact hc (List.mem_map.mpr ⟨x, hx, hxid.trans hvid.symm⟩)
  have hgone : ∀ x ∈ elems (goAppend (goAppend none pre) post), x.Id ≠ id := by
    intro x hx
    rw [hel] at hx
    rcases List.mem_append.mp hx with hx | hx
    · exact hpre x hx
    · exact hpost x hx
  have hnone := (findLoop_eq_none_iff id _).mpr hgone
  refine ⟨?_, hgone, ?_, ?_, ?_⟩
  · simp only [hel, List.map_append]
    rw [List.nodup_append]
    refine ⟨hparts.1, (List.nodup_cons.mp hparts.2.1).2, ?_⟩
    intro a ha hb
    exact hparts.2.2 ha (List.mem_cons_of_mem _ hb)
  · simp only [UserList.FindById, hnone]
  · rw [Remove_of_not_found _ id hnone]
  · rw [Remove_of_not_found _ id hnone]

/-- Witness of C18: removing id 2 from the records 1, 2, 3. -/
theorem C18_Remove_really_removes_witness :
    ((elems (some [⟨"1", "a", 1⟩, ⟨"2", "b", 2⟩, ⟨"3", "c", 3⟩])).map User.Id).Nodup ∧
    (∃ u ∈ elems (some [⟨"1", "a", 1⟩, ⟨"2", "b", 2⟩, ⟨"3", "c", 3⟩]), u.Id = "2") ∧
    elems ((UserList.mk none (some [⟨"1", "a", 1⟩, ⟨"2", "b", 2⟩, ⟨"3", "c", 3⟩])).Remove
        "2").recv.list = [⟨"1", "a", 1⟩, ⟨"3", "c", 3⟩] ∧
    (((UserList.mk none (some [⟨"1", "a", 1⟩, ⟨"2", "b", 2⟩, ⟨"3", "c", 3⟩])).Remove
        "2").recv.Remove "2").err = some "Item with id 2 not found" :=
  ⟨by decide, ⟨⟨"2", "b", 2⟩, by decide, rfl⟩, by decide,
    (C18_Remove_really_removes
      (UserList.mk none (some [⟨"1", "a", 1⟩, ⟨"2", "b", 2⟩, ⟨"3", "c", 3⟩])) "2"
      (by decide) ⟨⟨"2", "b", 2⟩, by decide, rfl⟩).2.2.2.1.trans (by decide)⟩

/-- C19: when the item decodes to a record whose id no record of the collection
has, `Add` of the item and then `Remove` of that id both return no error and
the collection holds exactly the records it held before, in the same order;
the storage factory is untouched. The slice itself is the one held before,
except that an empty non-nil slice comes back as the nil slice. -/
theorem C19_Remove_undoes_Add (L : GoStd) (ul : UserList) (item : String)
    (h : ∀ u ∈ elems ul.list, u.Id ≠ (L.UnmarshalUser item User.zero).Id) :
    (ul.Add L item).err = none ∧
    ((ul.Add L item).recv.Remove (L.UnmarshalUser item User.zero).Id).err = none ∧
    elems ((ul.Add L item).recv.Remove (L.UnmarshalUser item User.zero).Id).recv.list
      = elems ul.list ∧
    ((ul.Add L item).recv.Remove (L.UnmarshalUser item User.zero).Id).recv.datasource
      = ul.datasource ∧
    (ul.list ≠ some [] →
      ((ul.Add L item).recv.Remove (L.UnmarshalUser item User.zero).Id).recv.list = ul.list) ∧
    (ul.list = some [] →
      ((ul.Add L item).recv.Remove (L.UnmarshalUser item User.zero).Id).recv.list = none) := by
  have hadd := Add_of_not_found L ul item ((findLoop_eq_none_iff _ _).mpr h)
  rw [hadd]
  have hv : findLoop (L.UnmarshalUser item User.zero).Id
      (elems (goAppend ul.list [L.UnmarshalUser item User.zero]))
      = some (L.UnmarshalUser item User.zero) := by
    rw [elems_goAppend]
    exact findLoop_append _ (elems ul.list) _ [] rfl h
  have hrem : removeLoop (L.UnmarshalUser item User.zero).Id
      (goAppend ul.list [L.UnmarshalUser item User.zero])
      (elems (goAppend ul.list [L.UnmarshalUser item User.zero])) 0
      = goAppend (goAppend none (elems ul.list)) [] := by
    have := removeLoop_eq (L.UnmarshalUser item User.zero).Id
      (goAppend ul.list [L.UnmarshalUser item User.zero]) (elems ul.list)
      (L.UnmarshalUser item User.zero) [] [] (by simp [elems_goAppend]) rfl h
    rw [elems_goAppend]
    simpa using this
  have hR : ({ ul with list := goAppend ul.list [L.UnmarshalUser item User.zero] } :
      UserList).Remove (L.UnmarshalUser item User.zero).Id
      = { recv := { ul with list := goAppend (goAppend none (elems ul.list)) [] },
          ret := { ul with list := goAppend (goAppend none (elems ul.list)) [] },
          err := none } := by
    rw [Remove_of_found _ _ _ hv]
    dsimp only
    rw [hrem]
  dsimp only
  rw [hR]
  have hnil : elems (none : UserSlice) = [] := rfl
  refine ⟨rfl, rfl, ?_, rfl, ?_, ?_⟩
  · dsimp only
    rw [elems_goAppend, elems_goAppend, hnil, List.nil_append, List.append_nil]
  · intro hne
    cases hl : ul.list with
    | none => rfl
    | some l =>
      cases l with
      | nil => exact absurd hl hne
      | cons a t => simp [goAppend, elems]
  · intro he
    rw [he]
    rfl

/-- Witness of C19: adding the record of id 2 to a collection holding id 1 and
removing id 2 again. -/
theorem C19_Remove_undoes_Add_witness :
    (∀ u ∈ elems (some [⟨"1", "a@b.com", 30⟩]),
      u.Id ≠ (goStd.UnmarshalUser "\x7b\"id\":\"2\",\"email\":\"c@d.com\",\"age\":7\x7d"
        User.zero).Id) ∧
    (((UserList.mk none (some [⟨"1", "a@b.com", 30⟩])).Add goStd
        "\x7b\"id\":\"2\",\"email\":\"c@d.com\",\"age\":7\x7d").recv.Remove "2").recv.list
      = some [⟨"1", "a@b.com", 30⟩] :=
  ⟨by decide,
    ((C19_Remove_undoes_Add goStd (UserList.mk none (some [⟨"1", "a@b.com", 30⟩]))
      "\x7b\"id\":\"2\",\"email\":\"c@d.com\",\"age\":7\x7d" (by decide)).2.2.2.2.1
      (by decide)) ▸ (by decide)⟩

/-! ### The visiting order of the flag table: claim C20 -/

theorem filename_entry_mem :
    (filenameFlag,
      ({ defaultValue := "no", usage := "filename with user database", required := true,
         allowedValues := [], errorMsg := "-fileName flag has to be specified",
         errorValMsg := "" } : flagParams)) ∈ flags := by
  simp [flags]

/-- The shipped table accepts the arguments exactly when a file name is
supplied and the operation is one of the four allowed values. -/
theorem shipped_pass_iff (args : Arguments) :
    (∀ q ∈ flags, ¬ flagFails args q) ↔
      (¬ absentOrEmpty args filenameFlag ∧
        index args operationFlag ∈
          [operationList, operationAdd, operationRemove, operationFindById]) := by
  constructor
  · intro h
    constructor
    · intro hfile
      exact h _ filename_entry_mem (Or.inl ⟨rfl, hfile⟩)
    · by_contra hbad
      exact h _ operation_entry_mem (Or.inr ⟨by simp, hbad⟩)
  · rintro ⟨hfile, hop⟩ q hq hf
    obtain ⟨hfl, _, _, _, hallowed⟩ := shipped_failing_entry args q hq hfile hf
    rcases hf with hc | hc
    · have hidx : index args operationFlag = "" := by
        rw [← absentOrEmpty_iff_index, ← hfl]
        exact hc.2
      rw [hidx] at hop
      exact absurd hop (by decide)
    · rw [hallowed, hfl] at hc
      exact hc.2 hop

theorem shipped_checkArgs_none_iff (L : GoStd) (order : List (String × flagParams))
    (args : Arguments) (hperm : order.Perm flags) :
    checkArgs L order args = none ↔
      (¬ absentOrEmpty args filenameFlag ∧
        index args operationFlag ∈
          [operationList, operationAdd, operationRemove, operationFindById]) := by
  rw [checkArgs_eq_none_iff, ← shipped_pass_iff]
  constructor
  · intro h q hq
    exact h q (hperm.mem_iff.mpr hq)
  · intro h q hq
    exact h q (hperm.mem_iff.mp hq)

/-- Under every visiting order of the shipped table, with an allowed operation
and no file name: the missing-file-name message. -/
theorem shipped_filename_missing (L : GoStd) (order : List (String × flagParams))
    (args : Arguments) (hperm : order.Perm flags)
    (hfile : absentOrEmpty args filenameFlag)
    (hop : index args operationFlag ∈
      [operationList, operationAdd, operationRemove, operationFindById]) :
    checkArgs L order args = some "-fileName flag has to be specified" := by
  have hopne : ¬ absentOrEmpty args operationFlag := by
    rw [absentOrEmpty_iff_index]
    intro hidx
    rw [hidx] at hop
    exact absurd hop (by decide)
  cases hres : checkArgs L order args with
  | none =>
    exfalso
    have hall := (checkArgs_eq_none_iff L order args).mp hres
    exact hall _ (hperm.mem_iff.mpr filename_entry_mem) (Or.inl ⟨rfl, hfile⟩)
  | some e =>
    obtain ⟨pre, fl, p, post, hm, _, hcase⟩ := checkArgs_some_split L order args e hres
    have hmem : (fl, p) ∈ flags := hperm.mem_iff.mp (by simp [hm])
    simp only [flags, List.mem_cons, List.mem_singleton, List.not_mem_nil, or_false,
      Prod.mk.injEq] at hmem
    rcases hmem with ⟨rfl, rfl⟩ | ⟨rfl, rfl⟩ | ⟨rfl, rfl⟩ | ⟨rfl, rfl⟩
    · rcases hcase with hc | hc
      · exact absurd hc.2.1 hopne
      · exact absurd hop hc.2.2.1
    · rcases hcase with hc | hc
      · exact absurd hc.1 (by decide)
      · exact absurd rfl hc.2.1
    · rcases hcase with hc | hc
      · rw [hc.2.2]
      · exact absurd rfl hc.2.1
    · rcases hcase with hc | hc
      · exact absurd hc.1 (by decide)
      · exact absurd rfl hc.2.1

/-- Under every visiting order of the shipped table, when the operation check
and the file-name check do not both fail, the result of `checkArgs` is fixed
by the arguments alone. -/
theorem shipped_checkArgs_value (L : GoStd) (order : List (String × flagParams))
    (args : Arguments) (hperm : order.Perm flags)
    (hnot : ¬ (index args operationFlag ∉
        [operationList, operationAdd, operationRemove, operationFindById] ∧
      absentOrEmpty args filenameFlag)) :
    checkArgs L order args =
      if absentOrEmpty args filenameFlag then some "-fileName flag has to be specified"
      else if absentOrEmpty args operationFlag then some "-operation flag has to be specified"
      else if index args operationFlag ∈
          [operationList, operationAdd, operationRemove, operationFindById] then none
      else some (L.Sprintf "Operation %s not allowed!" (index args operationFlag)) := by
  by_cases hfile : absentOrEmpty args filenameFlag
  · have hop : index args operationFlag ∈
        [operationList, operationAdd, operationRemove, operationFindById] := by
      by_contra hc
      exact hnot ⟨hc, hfile⟩
    rw [if_pos hfile]
    exact shipped_filename_missing L order args hperm hfile hop
  · rw [if_neg hfile]
    by_cases hopA : absentOrEmpty args operationFlag
    · rw [if_pos hopA]
      exact shipped_operation_missing L order args hperm hfile hopA
    · rw [if_neg hopA]
      by_cases hop : index args operationFlag ∈
          [operationList, operationAdd, operationRemove, operationFindById]
      · rw [if_pos hop]
        exact (shipped_checkArgs_none_iff L order args hperm).mpr ⟨hfile, hop⟩
      · rw [if_neg hop]
        exact shipped_operation_invalid L order args hperm hfile hopA hop

/-- C20: for every flag table and argument map, two visiting orders of the
table either both make `checkArgs` accept or both make it reject. For the
shipped table, whenever the operation check (the value is one of the four
allowed ones) and the file-name check (the value is present and non-empty)
do not both fail, `checkArgs` returns the same result, error message
included, under every two visiting orders. -/
theorem C20_checkArgs_order_independent (L : GoStd) (m1 m2 : List (String × flagParams))
    (args : Arguments) (hperm : m1.Perm m2) :
    ((checkArgs L m1 args = none ↔ checkArgs L m2 args = none) ∧
     ((∃ e, checkArgs L m1 args = some e) ↔ (∃ e, checkArgs L m2 args = some e))) ∧
    (∀ o1 o2 : List (String × flagParams), o1.Perm flags → o2.Perm flags →
      ¬ (index args operationFlag ∉
          [operationList, operationAdd, operationRemove, operationFindById] ∧
        absentOrEmpty args filenameFlag) →
      checkArgs L o1 args = checkArgs L o2 args) := by
  have hnone : checkArgs L m1 args = none ↔ checkArgs L m2 args = none := by
    rw [checkArgs_eq_none_iff, checkArgs_eq_none_iff]
    constructor
    · intro h q hq
      exact h q (hperm.mem_iff.mpr hq)
    · intro h q hq
      exact h q (hperm.mem_iff.mp hq)
  refine ⟨⟨hnone, ?_⟩, ?_⟩
  · constructor
    · rintro ⟨e, he⟩
      cases h2 : checkArgs L m2 args with
      | none => rw [hnone.mpr h2] at he; exact absurd he (by simp)
      | some e2 => exact ⟨e2, rfl⟩
    · rintro ⟨e, he⟩
      cases h1 : checkArgs L m1 args with
      | none => rw [hnone.mp h1] at he; exact absurd he (by simp)
      | some e1 => exact ⟨e1, rfl⟩
  · intro o1 o2 h1 h2 hnot
    rw [shipped_checkArgs_value L o1 args h1 hnot, shipped_checkArgs_value L o2 args h2 hnot]

/-- Witness of C20: the shipped table in source order and in reverse order,
with the operation missing and a file name supplied. -/
theorem C20_checkArgs_order_independent_witness :
    flags.reverse.Perm flags ∧
    checkArgs goStd flags.reverse [("fileName", "users.json")]
      = checkArgs goStd flags [("fileName", "users.json")] ∧
    checkArgs goStd flags [("fileName", "users.json")]
      = some "-operation flag has to be specified" :=
  ⟨List.reverse_perm flags,
    (C20_checkArgs_order_independent goStd flags.reverse flags [("fileName", "users.json")]
      (List.reverse_perm flags)).2 flags.reverse flags (List.reverse_perm flags)
      (List.Perm.refl flags) (by decide),
    by decide⟩

/-! ### Lemmas on the dispatcher -/

/-- `Load` into the zero store bound to a file: the collection is what the
library decodes from the content of the file, the empty text when the file
did not exist; afterwards the file exists with that content and every other
file is as before. -/
theorem Load_fresh (L : GoStd) (name : String) (w : World)
    (hopen : w.openFails name = false) :
    ∃ w1, (UserList.zero.New (createDS fileDataSource name)).Load L w
        = some (w1, { datasource := some (createDS fileDataSource name),
                      list := L.UnmarshalUsers (w.content name) none }) ∧
      w1.openFails = w.openFails ∧ w1.files name = some (w.content name) ∧
      ∀ n, n ≠ name → w1.files n = w.files n := by
  cases hf : w.files name with
  | none =>
    have hc : w.content name = "" := by simp [World.content, hf]
    rw [hc]
    cases hres : (UserList.zero.New (createDS fileDataSource name)).Load L w with
    | none =>
      simp [UserList.Load, UserList.New, UserList.zero, createDS, fileDataSource, hopen] at hres
    | some r =>
      obtain ⟨w1, u1⟩ := r
      simp only [UserList.Load, UserList.New, UserList.zero, createDS, fileDataSource, hopen,
        Bool.false_eq_true, if_false, fileDS.ReadAll, Option.some.injEq, Prod.mk.injEq, hf,
        World.content, World.log, World.setFile, if_true, Option.getD_some, List.drop_zero,
        string_mk_data] at hres
      obtain ⟨rfl, rfl⟩ := hres
      refine ⟨_, rfl, rfl, ?_, ?_⟩
      · simp [fileDS.Close, World.log]
      · intro n hn
        simp [fileDS.Close, World.log, hn]
  | some data =>
    have hc : w.content name = data := by simp [World.content, hf]
    rw [hc]
    cases hres : (UserList.zero.New (createDS fileDataSource name)).Load L w with
    | none =>
      simp [UserList.Load, UserList.New, UserList.zero, createDS, fileDataSource, hopen] at hres
    | some r =>
      obtain ⟨w1, u1⟩ := r
      simp only [UserList.Load, UserList.New, UserList.zero, createDS, fileDataSource, hopen,
        Bool.false_eq_true, if_false, fileDS.ReadAll, Option.some.injEq, Prod.mk.injEq, hf,
        World.content, World.log, Option.getD_some, List.drop_zero, string_mk_data] at hres
      obtain ⟨rfl, rfl⟩ := hres
      refine ⟨_, rfl, rfl, ?_, ?_⟩
      · simp [fileDS.Close, World.log, hf]
      · intro n _
        simp [fileDS.Close, World.log]

/-- The tail of `Perform` on a store bound to a file that can be opened:
`Save` runs, the file holds the encoding of the collection, nil is returned. -/
theorem finish_file (L : GoStd) (u : UserList) (out : List String) (name : String) (w : World)
    (hds : u.datasource = some (createDS fileDataSource name))
    (hopen : w.openFails name = false) :
    ∃ w1, finish L u out w = some { world := w1, out := out, err := none } ∧
      u.Save L w = some (w1, u) ∧
      w1.files name = some (L.MarshalUsers u.list) ∧
      (∀ n, n ≠ name → w1.files n = w.files n) ∧
      w1.openFails = w.openFails := by
  obtain ⟨w1, hsave, hfile, hfails, hother⟩ := Save_file L u name w hds hopen
  exact ⟨w1, by simp only [finish, hsave], hsave, hfile, hother, hfails⟩

theorem Add_datasource (L : GoStd) (ul : UserList) (item : String) :
    (ul.Add L item).recv.datasource = ul.datasource := by
  cases hf : findLoop (L.UnmarshalUser item User.zero).Id (elems ul.list) with
  | some v => rw [Add_of_found L ul item v hf]
  | none => rw [Add_of_not_found L ul item hf]

theorem Remove_datasource (ul : UserList) (id : String) :
    (ul.Remove id).recv.datasource = ul.datasource := by
  cases hf : findLoop id (elems ul.list) with
  | some v => rw [Remove_of_found ul id v hf]
  | none => rw [Remove_of_not_found ul id hf]

theorem FindById_recv (ul : UserList) (id : String) : (ul.FindById id).1 = ul := by
  unfold UserList.FindById
  cases findLoop id (elems ul.list) <;> rfl

/-- `Perform` once both checks have passed and the file can be opened: `Load`
succeeds and the call is the dispatch on the operation, run on the loaded
store. -/
theorem Perform_valid (L : GoStd) (order : List (String × flagParams)) (args : Arguments)
    (writer : List String) (w : World)
    (hA : checkArgs L order args = none)
    (hO : checkOpArgs args opRequiredFlagsMap = none)
    (hopen : w.openFails (index args filenameFlag) = false) :
    ∃ w1 u0, (UserList.zero.New (createDS fileDataSource (index args filenameFlag))).Load L w
        = some (w1, u0) ∧
      u0.datasource = some (createDS fileDataSource (index args filenameFlag)) ∧
      u0.list = L.UnmarshalUsers (w.content (index args filenameFlag)) none ∧
      w1.openFails = w.openFails ∧
      (∀ n, n ≠ index args filenameFlag → w1.files n = w.files n) ∧
      Perform L order args writer w =
        if index args operationFlag = operationList then
          finish L u0 (writer ++ [L.MarshalUsers u0.list]) w1
        else if index args operationFlag = operationAdd then
          match (u0.Add L (index args itemFlag)).err with
          | some addErr => finish L (u0.Add L (index args itemFlag)).recv (writer ++ [addErr]) w1
          | none => finish L (u0.Add L (index args itemFlag)).recv writer w1
        else if index args operationFlag = operationRemove then
          match (u0.Remove (index args idFlag)).err with
          | some removeErr =>
            finish L (u0.Remove (index args idFlag)).recv (writer ++ [removeErr]) w1
          | none => finish L (u0.Remove (index args idFlag)).recv writer w1
        else if index args operationFlag = operationFindById then
          match u0.FindById (index args idFlag) with
          | (u, _, some _) => finish L u (writer ++ [""]) w1
          | (u, found, none) => finish L u (writer ++ [L.MarshalUser found]) w1
        else
          some { world := w1, out := writer, err := some ">> Requested unknown operation" } := by
  obtain ⟨w1, hload, hfails, _, hother⟩ := Load_fresh L (index args filenameFlag) w hopen
  refine ⟨w1, _, hload, rfl, rfl, hfails, hother, ?_⟩
  simp only [Perform, hA, hO, hload, UserList.List]

/-- `Perform` once both checks have passed on the shipped table and the file
can be opened: the loaded store, the store that is saved, the chunks written
and the file left behind, for each of the four operations. -/
theorem Perform_valid_run (L : GoStd) (order : List (String × flagParams)) (args : Arguments)
    (writer : List String) (w : World) (hperm : order.Perm flags)
    (hA : checkArgs L order args = none)
    (hO : checkOpArgs args opRequiredFlagsMap = none)
    (hopen : w.openFails (index args filenameFlag) = false) :
    ∃ r w1 u0 u,
      (UserList.zero.New (createDS fileDataSource (index args filenameFlag))).Load L w
        = some (w1, u0) ∧
      u0.list = L.UnmarshalUsers (w.content (index args filenameFlag)) none ∧
      Perform L order args writer w = some r ∧ r.err = none ∧
      u.Save L w1 = some (r.world, u) ∧
      r.world.files (index args filenameFlag) = some (L.MarshalUsers u.list) ∧
      (∀ n, n ≠ index args filenameFlag → r.world.files n = w.files n) ∧
      (index args operationFlag = operationList →
        u = u0 ∧ r.out = writer ++ [L.MarshalUsers u0.list]) ∧
      (index args operationFlag = operationAdd →
        u = (u0.Add L (index args itemFlag)).recv ∧
        r.out = writer ++ (u0.Add L (index args itemFlag)).err.toList) ∧
      (index args operationFlag = operationRemove →
        u = (u0.Remove (index args idFlag)).recv ∧
        r.out = writer ++ (u0.Remove (index args idFlag)).err.toList) ∧
      (index args operationFlag = operationFindById →
        u = u0 ∧
        r.out = writer ++ [match findLoop (index args idFlag) (elems u0.list) with
          | some v => L.MarshalUser v
          | none => ""]) ∧
      r.world.openFails = w.openFails := by
  obtain ⟨w1, u0, hload, hds, hlist, hfails1, hother, hperf⟩ :=
    Perform_valid L order args writer w hA hO hopen
  have hopen1 : w1.openFails (index args filenameFlag) = false := by rw [hfails1]; exact hopen
  have hop := ((shipped_checkArgs_none_iff L order args hperm).mp hA).2
  have n1 : operationAdd ≠ operationList := by decide
  have n2 : operationRemove ≠ operationList := by decide
  have n3 : operationRemove ≠ operationAdd := by decide
  have n4 : operationFindById ≠ operationList := by decide
  have n5 : operationFindById ≠ operationAdd := by decide
  have n6 : operationFindById ≠ operationRemove := by decide
  simp only [List.mem_cons, List.mem_singleton, List.not_mem_nil, or_false] at hop
  rcases hop with hop | hop | hop | hop
  · rw [hop] at hperf ⊢
    simp only [if_true] at hperf
    obtain ⟨w2, hfin, hsave, hfile, hoth2, hfails2⟩ :=
      finish_file L u0 (writer ++ [L.MarshalUsers u0.list]) _ w1 hds hopen1
    refine ⟨_, w1, u0, u0, hload, hlist, hperf.trans hfin, rfl, hsave, hfile,
      fun n hn => (hoth2 n hn).trans (hother n hn), fun _ => ⟨rfl, rfl⟩,
      fun h => absurd h.symm n1, fun h => absurd h.symm n2, fun h => absurd h.symm n4,
      hfails2.trans hfails1⟩
  · rw [hop] at hperf ⊢
    simp only [n1, if_false, if_true] at hperf
    have hdsA := (Add_datasource L u0 (index args itemFlag)).trans hds
    cases herr : (u0.Add L (index args itemFlag)).err with
    | some e =>
      simp only [herr] at hperf
      obtain ⟨w2, hfin, hsave, hfile, hoth2, hfails2⟩ :=
        finish_file L (u0.Add L (index args itemFlag)).recv (writer ++ [e]) _ w1 hdsA hopen1
      refine ⟨_, w1, u0, _, hload, hlist, hperf.trans hfin, rfl, hsave, hfile,
        fun n hn => (hoth2 n hn).trans (hother n hn), fun h => absurd h n1,
        fun _ => ⟨rfl, by simp [herr]⟩, fun h => absurd h.symm n3, fun h => absurd h.symm n5,
        hfails2.trans hfails1⟩
    | none =>
      simp only [herr] at hperf
      obtain ⟨w2, hfin, hsave, hfile, hoth2, hfails2⟩ :=
        finish_file L (u0.Add L (index args itemFlag)).recv writer _ w1 hdsA hopen1
      refine ⟨_, w1, u0, _, hload, hlist, hperf.trans hfin, rfl, hsave, hfile,
        fun n hn => (hoth2 n hn).trans (hother n hn), fun h => absurd h n1,
        fun _ => ⟨rfl, by simp [herr]⟩, fun h => absurd h.symm n3, fun h => absurd h.symm n5,
        hfails2.trans hfails1⟩
  · rw [hop] at hperf ⊢
    simp only [n2, n3, if_false, if_true] at hperf
    have hdsR := (Remove_datasource u0 (index args idFlag)).trans hds
    cases herr : (u0.Remove (index args idFlag)).err with
    | some e =>
      simp only [herr] at hperf
      obtain ⟨w2, hfin, hsave, hfile, hoth2, hfails2⟩ :=
        finish_file L (u0.Remove (index args idFlag)).recv (writer ++ [e]) _ w1 hdsR hopen1
      refine ⟨_, w1, u0, _, hload, hlist, hperf.trans hfin, rfl, hsave, hfile,
        fun n hn => (hoth2 n hn).trans (hother n hn), fun h => absurd h n2,
        fun h => absurd h n3, fun _ => ⟨rfl, by simp [herr]⟩, fun h => absurd h.symm n6,
        hfails2.trans hfails1⟩
    | none =>
      simp only [herr] at hperf
      obtain ⟨w2, hfin, hsave, hfile, hoth2, hfails2⟩ :=
        finish_file L (u0.Remove (index args idFlag)).recv writer _ w1 hdsR hopen1
      refine ⟨_, w1, u0, _, hload, hlist, hperf.trans hfin, rfl, hsave, hfile,
        fun n hn => (hoth2 n hn).trans (hother n hn), fun h => absurd h n2,
        fun h => absurd h n3, fun _ => ⟨rfl, by simp [herr]⟩, fun h => absurd h.symm n6,
        hfails2.trans hfails1⟩
  · rw [hop] at hperf ⊢
    simp only [n4, n5, n6, if_false, if_true, UserList.FindById] at hperf
    cases hf : findLoop (index args idFlag) (elems u0.list) with
    | some v =>
      simp only [hf] at hperf
      obtain ⟨w2, hfin, hsave, hfile, hoth2, hfails2⟩ :=
        finish_file L u0 (writer ++ [L.MarshalUser v]) _ w1 hds hopen1
      refine ⟨_, w1, u0, u0, hload, hlist, hperf.trans hfin, rfl, hsave, hfile,
        fun n hn => (hoth2 n hn).trans (hother n hn), fun h => absurd h n4,
        fun h => absurd h n5, fun h => absurd h n6, fun _ => ⟨rfl, by simp [hf]⟩,
        hfails2.trans hfails1⟩
    | none =>
      simp only [hf] at hperf
      obtain ⟨w2, hfin, hsave, hfile, hoth2, hfails2⟩ :=
        finish_file L u0 (writer ++ [""]) _ w1 hds hopen1
      refine ⟨_, w1, u0, u0, hload, hlist, hperf.trans hfin, rfl, hsave, hfile,
        fun n hn => (hoth2 n hn).trans (hother n hn), fun h => absurd h n4,
        fun h => absurd h n5, fun h => absurd h n6, fun _ => ⟨rfl, by simp [hf]⟩,
        hfails2.trans hfails1⟩

/-- `Perform` once both checks have passed and the file cannot be opened: the
process ends inside `Load`. -/
theorem Perform_open_fails (L : GoStd) (order : List (String × flagParams)) (args : Arguments)
    (writer : List String) (w : World)
    (hA : checkArgs L order args = none)
    (hO : checkOpArgs args opRequiredFlagsMap = none)
    (hopen : w.openFails (index args filenameFlag) = true) :
    Perform L order args writer w = none := by
  simp [Perform, hA, hO, UserList.Load, UserList.New, UserList.zero, createDS,
    fileDataSource, hopen]

/-! ### The default branch of the dispatch: claim C11 -/

/-- The errors of the operation-level check all have the missing-flag form. -/
theorem checkOpLoop_some_form (arg : Arguments) (l : List String) (e : String)
    (h : checkOpLoop arg l = some e) :
    ∃ f, e = "-" ++ f ++ " flag has to be specified" := by
  induction l with
  | nil => simp [checkOpLoop] at h
  | cons a t ih =>
    by_cases ha : absentOrEmpty arg a
    · rw [checkOpLoop_cons_missing arg a t ha] at h
      exact ⟨a, (Option.some.inj h).symm⟩
    · rw [checkOpLoop_cons_present arg a t ha] at h
      exact ih h

/-- The errors of the flag-level check on the shipped table, under every
visiting order. -/
theorem shipped_checkArgs_some_form (L : GoStd) (order : List (String × flagParams))
    (args : Arguments) (hperm : order.Perm flags) (e : String)
    (h : checkArgs L order args = some e) :
    e = "-operation flag has to be specified" ∨ e = "-fileName flag has to be specified" ∨
      e = L.Sprintf "Operation %s not allowed!" (index args operationFlag) := by
  obtain ⟨pre, fl, p, post, hm, _, hcase⟩ := checkArgs_some_split L order args e h
  have hmem : (fl, p) ∈ flags := hperm.mem_iff.mp (by simp [hm])
  simp only [flags, List.mem_cons, List.mem_singleton, List.not_mem_nil, or_false,
    Prod.mk.injEq] at hmem
  rcases hmem with ⟨rfl, rfl⟩ | ⟨rfl, rfl⟩ | ⟨rfl, rfl⟩ | ⟨rfl, rfl⟩
  · rcases hcase with hc | hc
    · exact Or.inl hc.2.2
    · exact Or.inr (Or.inr hc.2.2.2)
  · rcases hcase with hc | hc
    · exact absurd hc.1 (by decide)
    · exact absurd rfl hc.2.1
  · rcases hcase with hc | hc
    · exact Or.inr (Or.inl hc.2.2)
    · exact absurd rfl hc.2.1
  · rcases hcase with hc | hc
    · exact absurd hc.1 (by decide)
    · exact absurd rfl hc.2.1

theorem operation_text_ne_unknown (X : String) :
    "Operation " ++ X ++ " not allowed!" ≠ ">> Requested unknown operation" := by
  intro h
  have hd := congrArg String.data h
  have hu : (">> Requested unknown operation" : String).data
      = '>' :: ("> Requested unknown operation" : String).data := by decide
  have ho : ("Operation " : String).data = 'O' :: ("peration " : String).data := by decide
  rw [hu] at hd
  simp only [String.data_append, ho, List.cons_append, List.cons.injEq] at hd
  exact absurd hd.1 (by decide)

theorem flag_text_ne_unknown (f : String) :
    "-" ++ f ++ " flag has to be specified" ≠ ">> Requested unknown operation" := by
  intro h
  have hd := congrArg String.data h
  have hu : (">> Requested unknown operation" : String).data
      = '>' :: ("> Requested unknown operation" : String).data := by decide
  have ho : ("-" : String).data = ['-'] := by decide
  rw [hu] at hd
  simp only [String.data_append, ho, List.cons_append, List.nil_append, List.cons.injEq] at hd
  exact absurd hd.1 (by decide)

/-- C11: under every visiting order of the shipped flag table, whenever
`checkArgs` accepts the arguments the operation is one of list, add, remove,
findById, so the default branch of the dispatch is not reached: an error
returned by `Perform` is the error of the flag-level check or, when that one
passes, of the operation-level check; `Perform` returns an error exactly
when one of the two checks fails; and when both pass and the file can be
opened, `Perform` returns nil after `Save` has run on the world that `Load`
left. When `Sprintf` renders the invalid-operation format as
"Operation X not allowed!", no returned error has the text
">> Requested unknown operation". -/
theorem C11_unknown_operation_unreachable (L : GoStd) (order : List (String × flagParams))
    (args : Arguments) (writer : List String) (w : World) (hperm : order.Perm flags) :
    (checkArgs L order args = none →
      index args operationFlag ∈
        [operationList, operationAdd, operationRemove, operationFindById]) ∧
    (∀ r e, Perform L order args writer w = some r → r.err = some e →
      checkArgs L order args = some e ∨
        (checkArgs L order args = none ∧ checkOpArgs args opRequiredFlagsMap = some e)) ∧
    ((∃ r e, Perform L order args writer w = some r ∧ r.err = some e) ↔
      (checkArgs L order args ≠ none ∨ checkOpArgs args opRequiredFlagsMap ≠ none)) ∧
    (checkArgs L order args = none → checkOpArgs args opRequiredFlagsMap = none →
      w.openFails (index args filenameFlag) = false →
      ∃ (r : Run) (w1 : World) (u0 u : UserList),
        (UserList.zero.New (createDS fileDataSource (index args filenameFlag))).Load L w
          = some (w1, u0) ∧
        u.Save L w1 = some (r.world, u) ∧
        Perform L order args writer w = some r ∧ r.err = none) ∧
    ((∀ X, L.Sprintf "Operation %s not allowed!" X = "Operation " ++ X ++ " not allowed!") →
      ∀ r, Perform L order args writer w = some r →
        r.err ≠ some ">> Requested unknown operation") := by
  have hsrc : ∀ r e, Perform L order args writer w = some r → r.err = some e →
      checkArgs L order args = some e ∨
        (checkArgs L order args = none ∧ checkOpArgs args opRequiredFlagsMap = some e) := by
    intro r e hr he
    cases hA : checkArgs L order args with
    | some a =>
      simp only [Perform, hA, Option.some.injEq] at hr
      rw [← hr] at he
      exact Or.inl he
    | none =>
      cases hO : checkOpArgs args opRequiredFlagsMap with
      | some b =>
        simp only [Perform, hA, hO, Option.some.injEq] at hr
        rw [← hr] at he
        exact Or.inr ⟨rfl, he⟩
      | none =>
        exfalso
        cases hopen : w.openFails (index args filenameFlag) with
        | true =>
          rw [Perform_open_fails L order args writer w hA hO hopen] at hr
          exact absurd hr (by simp)
        | false =>
          obtain ⟨r1, _, _, _, _, _, hperf, herr, _⟩ :=
            Perform_valid_run L order args writer w hperm hA hO hopen
          rw [hperf] at hr
          rw [← Option.some.inj hr, herr] at he
          exact absurd he (by simp)
  refine ⟨fun hA => ((shipped_checkArgs_none_iff L order args hperm).mp hA).2, hsrc, ?_, ?_, ?_⟩
  · constructor
    · rintro ⟨r, e, hr, he⟩
      rcases hsrc r e hr he with h | h
      · exact Or.inl (by rw [h]; simp)
      · exact Or.inr (by rw [h.2]; simp)
    · intro h
      cases hA : checkArgs L order args with
      | some a =>
        exact ⟨{ world := w, out := writer, err := some a }, a, by simp only [Perform, hA], rfl⟩
      | none =>
        cases hO : checkOpArgs args opRequiredFlagsMap with
        | some b =>
          exact ⟨{ world := w, out := writer, err := some b }, b,
            by simp only [Perform, hA, hO], rfl⟩
        | none =>
          rcases h with h | h
          · exact absurd hA h
          · exact absurd hO h
  · intro hA hO hopen
    obtain ⟨r, w1, u0, u, hload, _, hperf, herr, hsave, _⟩ :=
      Perform_valid_run L order args writer w hperm hA hO hopen
    exact ⟨r, w1, u0, u, hload, hsave, hperf, herr⟩
  · intro hfmt r hr he
    rcases hsrc r _ hr he with h | h
    · rcases shipped_checkArgs_some_form L order args hperm _ h with h1 | h1 | h1
      · exact absurd h1 (by decide)
      · exact absurd h1 (by decide)
      · rw [hfmt] at h1
        exact operation_text_ne_unknown _ h1.symm
    · obtain ⟨f, hf⟩ := checkOpLoop_some_form args _ _ h.2
      exact flag_text_ne_unknown f hf.symm

/-- Counterexample to C11 as stated: on a world in which the file cannot be
opened, operation list with a file name passes both checks, yet `Load` ends
the process in `log.Fatal`: `Perform` returns nothing and `Save` never runs,
the file is never created. -/
theorem C11_open_failure_skips_Save :
    checkArgs goStd flags [("operation", "list"), ("fileName", "users.json")] = none ∧
    checkOpArgs [("operation", "list"), ("fileName", "users.json")] opRequiredFlagsMap = none ∧
    closedWorld.openFails "users.json" = true ∧
    ((UserList.zero.New (createDS fileDataSource "users.json")).Load goStd closedWorld).isNone
      = true ∧
    (Perform goStd flags [("operation", "list"), ("fileName", "users.json")] []
      closedWorld).isNone = true := by
  refine ⟨by decide, by decide, rfl, by decide, ?_⟩
  rw [Perform_open_fails goStd flags [("operation", "list"), ("fileName", "users.json")] []
    closedWorld (by decide) (by decide) rfl]
  rfl

/-- Witness of C11: the shipped table in reverse order, operation list on a
world without files; `Perform` returns nil and leaves the file written by
`Save`. -/
theorem C11_unknown_operation_unreachable_witness :
    flags.reverse.Perm flags ∧
    ∃ r, Perform goStd flags.reverse [("operation", "list"), ("fileName", "users.json")] []
        emptyWorld = some r ∧ r.err = none ∧ r.world.files "users.json" = some "null" := by
  refine ⟨List.reverse_perm flags, ?_⟩
  obtain ⟨r, w1, u0, u, hload, hsave, hperf, herr⟩ :=
    (C11_unknown_operation_unreachable goStd flags.reverse
      [("operation", "list"), ("fileName", "users.json")] [] emptyWorld
      (List.reverse_perm flags)).2.2.2.1 (by decide) (by decide) rfl
  refine ⟨r, hperf, herr, ?_⟩
  have := congrArg (Option.map (fun r => r.world.files "users.json")) hperf
  rw [Option.map_some'] at this
  exact Option.some.inj (this.symm.trans (by decide))

/-! ### The four operations through the dispatcher: claims C12 to C16 -/

/-- The operation-level check on the shipped map, by operation. -/
theorem shipped_checkOpArgs_value (args : Arguments) :
    checkOpArgs args opRequiredFlagsMap =
      if index args operationFlag = operationAdd then
        (if absentOrEmpty args itemFlag then some "-item flag has to be specified" else none)
      else if index args operationFlag = operationRemove
          ∨ index args operationFlag = operationFindById then
        (if absentOrEmpty args idFlag then some "-id flag has to be specified" else none)
      else none := by
  have hone : ∀ f : String, checkOpLoop args [f] =
      if absentOrEmpty args f then some ("-" ++ f ++ " flag has to be specified") else none := by
    intro f
    by_cases h : absentOrEmpty args f
    · rw [checkOpLoop_cons_missing args f [] h, if_pos h]
    · rw [checkOpLoop_cons_present args f [] h, if_neg h]
      rfl
  by_cases h1 : index args operationFlag = operationAdd
  · have hl : List.lookup (index args operationFlag) opRequiredFlagsMap = some [itemFlag] := by
      rw [h1]
      decide
    rw [if_pos h1]
    unfold checkOpArgs
    simp only [hl, Option.getD_some]
    exact hone itemFlag
  · rw [if_neg h1]
    by_cases h2 : index args operationFlag = operationRemove
        ∨ index args operationFlag = operationFindById
    · have hl : List.lookup (index args operationFlag) opRequiredFlagsMap = some [idFlag] := by
        rcases h2 with h2 | h2 <;> rw [h2] <;> decide
      rw [if_pos h2]
      unfold checkOpArgs
      simp only [hl, Option.getD_some]
      exact hone idFlag
    · rw [if_neg h2]
      have e1 : (index args operationFlag == "add") = false := beq_eq_false_iff_ne.mpr h1
      have e2 : (index args operationFlag == "remove") = false :=
        beq_eq_false_iff_ne.mpr (fun h => h2 (Or.inl h))
      have e3 : (index args operationFlag == "findById") = false :=
        beq_eq_false_iff_ne.mpr (fun h => h2 (Or.inr h))
      have hl : List.lookup (index args operationFlag) opRequiredFlagsMap = none := by
        simp only [opRequiredFlagsMap, List.lookup, operationAdd, operationRemove,
          operationFindById, e1, e2, e3]
      unfold checkOpArgs
      simp only [hl, Option.getD_none]
      rfl

/-- The text written to the output sink: the chunks in order. -/
theorem join_append_empty (chunks : List String) :
    String.join (chunks ++ [""]) = String.join chunks := by
  simp [String.join, List.foldl_append]

/-- C12: under every visiting order of the shipped table, for a file that can
be opened and whose content decodes to a collection holding a record with
the id of the decoded item, `Perform` with operation add and a non-empty item
writes the one chunk "Item with id <id> already exists", returns nil, and
`Save` leaves the file holding the encoding of the loaded collection; every
other file is untouched. The file is as it was before whenever it held
exactly that encoding. -/
theorem C12_duplicate_add_through_Perform (L : GoStd) (order : List (String × flagParams))
    (args : Arguments) (writer : List String) (w : World) (hperm : order.Perm flags)
    (hop : index args operationFlag = operationAdd)
    (hfile : ¬ absentOrEmpty args filenameFlag)
    (hitem : ¬ absentOrEmpty args itemFlag)
    (hopen : w.openFails (index args filenameFlag) = false)
    (hdup : ∃ u ∈ elems (L.UnmarshalUsers (w.content (index args filenameFlag)) none),
      u.Id = (L.UnmarshalUser (index args itemFlag) User.zero).Id) :
    ∃ r, Perform L order args writer w = some r ∧ r.err = none ∧
      r.out = writer ++ ["Item with id "
        ++ (L.UnmarshalUser (index args itemFlag) User.zero).Id ++ " already exists"] ∧
      r.world.files (index args filenameFlag)
        = some (L.MarshalUsers (L.UnmarshalUsers (w.content (index args filenameFlag)) none)) ∧
      (∀ n, n ≠ index args filenameFlag → r.world.files n = w.files n) ∧
      (w.files (index args filenameFlag)
          = some (L.MarshalUsers (L.UnmarshalUsers (w.content (index args filenameFlag)) none)) →
        r.world.files (index args filenameFlag) = w.files (index args filenameFlag)) := by
  have hA : checkArgs L order args = none :=
    (shipped_checkArgs_none_iff L order args hperm).mpr ⟨hfile, by rw [hop]; decide⟩
  have hO : checkOpArgs args opRequiredFlagsMap = none := by
    rw [shipped_checkOpArgs_value, if_pos hop, if_neg hitem]
  obtain ⟨r, w1, u0, u, _, hlist, hperf, herr, _, hfiles, hother, _, hadd, _⟩ :=
    Perform_valid_run L order args writer w hperm hA hO hopen
  obtain ⟨hu, hout⟩ := hadd hop
  rw [← hlist] at hdup
  obtain ⟨v, hv⟩ := (findLoop_isSome_iff _ (elems u0.list)).mpr hdup
  rw [Add_of_found L u0 _ v hv] at hu hout
  rw [hu, hlist] at hfiles
  refine ⟨r, hperf, herr, by simpa using hout, hfiles, hother, ?_⟩
  intro hsame
  rw [hfiles, hsame]

/-- Counterexample to C12 as stated: the file holds one record whose id 1 is
written with an escape; adding an item of id 1 is rejected with the stated
text and nil is returned, but `Save` rewrites the file without the escape, so
its content has changed. -/
theorem C12_file_content_changes :
    (∃ u ∈ elems (goStd.UnmarshalUsers
        "[\x7b\"id\":\"\\u0031\",\"email\":\"a@b.com\",\"age\":30\x7d]" none), u.Id = "1") ∧
    (goStd.UnmarshalUser "\x7b\"id\":\"1\",\"email\":\"x@y.com\",\"age\":1\x7d" User.zero).Id
      = "1" ∧
    (Perform goStd flags
        [("operation", "add"), ("fileName", "users.json"),
          ("item", "\x7b\"id\":\"1\",\"email\":\"x@y.com\",\"age\":1\x7d")] []
        (emptyWorld.setFile "users.json"
          "[\x7b\"id\":\"\\u0031\",\"email\":\"a@b.com\",\"age\":30\x7d]")).map
        (fun r => (r.out, r.err, r.world.files "users.json"))
      = some (["Item with id 1 already exists"], none,
          some "[\x7b\"id\":\"1\",\"email\":\"a@b.com\",\"age\":30\x7d]") ∧
    (emptyWorld.setFile "users.json"
        "[\x7b\"id\":\"\\u0031\",\"email\":\"a@b.com\",\"age\":30\x7d]").files "users.json"
      ≠ some "[\x7b\"id\":\"1\",\"email\":\"a@b.com\",\"age\":30\x7d]" := by
  refine ⟨⟨⟨"1", "a@b.com", 30⟩, by decide, rfl⟩, by decide, by decide, by decide⟩

/-- Witness of C12: the file holds the encoding of one record of id 1; adding
an item of id 1 writes the stated text and leaves the file as it was. -/
theorem C12_duplicate_add_through_Perform_witness :
    ∃ r, Perform goStd flags
        [("operation", "add"), ("fileName", "users.json"),
          ("item", "\x7b\"id\":\"1\",\"email\":\"x@y.com\",\"age\":1\x7d")] []
        (emptyWorld.setFile "users.json"
          "[\x7b\"id\":\"1\",\"email\":\"a@b.com\",\"age\":30\x7d]") = some r ∧
      r.err = none ∧ r.out = ["Item with id 1 already exists"] ∧
      r.world.files "users.json"
        = some "[\x7b\"id\":\"1\",\"email\":\"a@b.com\",\"age\":30\x7d]" := by
  obtain ⟨r, hperf, herr, hout, hfiles, _, _⟩ :=
    C12_duplicate_add_through_Perform goStd flags
      [("operation", "add"), ("fileName", "users.json"),
        ("item", "\x7b\"id\":\"1\",\"email\":\"x@y.com\",\"age\":1\x7d")] []
      (emptyWorld.setFile "users.json"
        "[\x7b\"id\":\"1\",\"email\":\"a@b.com\",\"age\":30\x7d]")
      (List.Perm.refl flags) (by decide) (by decide) (by decide) rfl
      ⟨⟨"1", "a@b.com", 30⟩, by decide, by decide⟩
  exact ⟨r, hperf, herr, hout.trans (by decide), hfiles.trans (by decide)⟩

/-- C13: under every visiting order of the shipped table, for a file that can
be opened and a non-empty id, `Perform` with operation findById returns nil
and saves the very collection it loaded. When some record has the id it
writes one chunk, the encoding of the first such record in collection order;
when none has it the only write is of the empty text, so the text of the
output sink is what it was before: no record, no error message. -/
theorem C13_findById_through_Perform (L : GoStd) (order : List (String × flagParams))
    (args : Arguments) (writer : List String) (w : World) (hperm : order.Perm flags)
    (hop : index args operationFlag = operationFindById)
    (hfile : ¬ absentOrEmpty args filenameFlag)
    (hid : ¬ absentOrEmpty args idFlag)
    (hopen : w.openFails (index args filenameFlag) = false) :
    ∃ (r : Run) (w1 : World) (u0 : UserList),
      (UserList.zero.New (createDS fileDataSource (index args filenameFlag))).Load L w
        = some (w1, u0) ∧
      u0.list = L.UnmarshalUsers (w.content (index args filenameFlag)) none ∧
      Perform L order args writer w = some r ∧ r.err = none ∧
      u0.Save L w1 = some (r.world, u0) ∧
      r.world.files (index args filenameFlag) = some (L.MarshalUsers u0.list) ∧
      (∀ pre v post, elems u0.list = pre ++ v :: post → v.Id = index args idFlag →
        (∀ x ∈ pre, x.Id ≠ index args idFlag) → r.out = writer ++ [L.MarshalUser v]) ∧
      ((∀ x ∈ elems u0.list, x.Id ≠ index args idFlag) →
        r.out = writer ++ [""] ∧ String.join r.out = String.join writer) := by
  have hA : checkArgs L order args = none :=
    (shipped_checkArgs_none_iff L order args hperm).mpr ⟨hfile, by rw [hop]; decide⟩
  have hO : checkOpArgs args opRequiredFlagsMap = none := by
    rw [shipped_checkOpArgs_value, if_neg (by rw [hop]; decide), if_pos (Or.inr hop),
      if_neg hid]
  obtain ⟨r, w1, u0, u, hload, hlist, hperf, herr, hsave, hfiles, _, _, _, _, hfind, _⟩ :=
    Perform_valid_run L order args writer w hperm hA hO hopen
  obtain ⟨hu, hout⟩ := hfind hop
  subst hu
  refine ⟨r, w1, u, hload, hlist, hperf, herr, hsave, hfiles, ?_, ?_⟩
  · intro pre v post hl hv hpre
    rw [hout, hl, findLoop_append _ pre v post hv hpre]
  · intro hno
    have hout2 : r.out = writer ++ [""] := by
      rw [hout, (findLoop_eq_none_iff _ _).mpr hno]
    exact ⟨hout2, by rw [hout2, join_append_empty]⟩

/-- Witness of C13: a store with the one record of id 9; findById with id 5
writes the empty text, findById with id 9 the record. -/
theorem C13_findById_through_Perform_witness :
    (∃ r, Perform goStd flags
        [("operation", "findById"), ("fileName", "users.json"), ("id", "5")] []
        (emptyWorld.setFile "users.json"
          "[\x7b\"id\":\"9\",\"email\":\"a@b.com\",\"age\":30\x7d]") = some r ∧
      r.err = none ∧ String.join r.out = "" ∧
      r.world.files "users.json"
        = some "[\x7b\"id\":\"9\",\"email\":\"a@b.com\",\"age\":30\x7d]") ∧
    (Perform goStd flags
        [("operation", "findById"), ("fileName", "users.json"), ("id", "9")] []
        (emptyWorld.setFile "users.json"
          "[\x7b\"id\":\"9\",\"email\":\"a@b.com\",\"age\":30\x7d]")).map (fun r => r.out)
      = some ["\x7b\"id\":\"9\",\"email\":\"a@b.com\",\"age\":30\x7d"] := by
  refine ⟨?_, by decide⟩
  obtain ⟨r, w1, u0, _, hlist, hperf, herr, _, hfiles, _, hmiss⟩ :=
    C13_findById_through_Perform goStd flags
      [("operation", "findById"), ("fileName", "users.json"), ("id", "5")] []
      (emptyWorld.setFile "users.json"
        "[\x7b\"id\":\"9\",\"email\":\"a@b.com\",\"age\":30\x7d]")
      (List.Perm.refl flags) (by decide) (by decide) (by decide) rfl
  have hl : u0.list = some [⟨"9", "a@b.com", 30⟩] := hlist.trans (by decide)
  refine ⟨r, hperf, herr, ?_, ?_⟩
  · have := (hmiss (by rw [hl]; decide)).2
    exact this.trans (by decide)
  · have hf : r.world.files "users.json" = some (goStd.MarshalUsers u0.list) := hfiles
    rw [hf, hl]
    decide

/-- The collection `Add` leaves on a collection without records. -/
theorem goAppend_no_records (s : UserSlice) (r : User) (h : elems s = []) :
    goAppend s [r] = some [r] := by
  cases s with
  | none => rfl
  | some l =>
    have hl : l = [] := h
    subst hl
    rfl

/-- C14: under every visiting order of the shipped table, on a file that can
be opened and decodes to a collection without records (missing, empty, or an
empty array), `Perform` with operation add and a non-empty item that decodes
to the record r writes nothing, returns nil and leaves the file holding the
encoding of the one-element collection of r; when the library decodes that
encoding back, a following `Perform` with operation list on the same file
writes exactly that encoding as its one chunk, returns nil and leaves the
file holding it. -/
theorem C14_add_then_list (L : GoStd) (o1 o2 : List (String × flagParams))
    (args1 args2 : Arguments) (writer : List String) (w : World) (name : String) (r : User)
    (h1 : o1.Perm flags) (h2 : o2.Perm flags)
    (hop1 : index args1 operationFlag = operationAdd)
    (hop2 : index args2 operationFlag = operationList)
    (hname1 : index args1 filenameFlag = name) (hname2 : index args2 filenameFlag = name)
    (hname : name ≠ "")
    (hitem : ¬ absentOrEmpty args1 itemFlag)
    (hopen : w.openFails name = false)
    (hempty : elems (L.UnmarshalUsers (w.content name) none) = [])
    (hdec : L.UnmarshalUser (index args1 itemFlag) User.zero = r)
    (hround : L.UnmarshalUsers (L.MarshalUsers (some [r])) none = some [r]) :
    ∃ ra rl, Perform L o1 args1 writer w = some ra ∧ ra.err = none ∧ ra.out = writer ∧
      ra.world.files name = some (L.MarshalUsers (some [r])) ∧
      Perform L o2 args2 [] ra.world = some rl ∧ rl.err = none ∧
      rl.out = [L.MarshalUsers (some [r])] ∧
      rl.world.files name = some (L.MarshalUsers (some [r])) := by
  have hf1 : ¬ absentOrEmpty args1 filenameFlag := by
    rw [absentOrEmpty_iff_index, hname1]
    exact hname
  have hf2 : ¬ absentOrEmpty args2 filenameFlag := by
    rw [absentOrEmpty_iff_index, hname2]
    exact hname
  have hA1 : checkArgs L o1 args1 = none :=
    (shipped_checkArgs_none_iff L o1 args1 h1).mpr ⟨hf1, by rw [hop1]; decide⟩
  have hO1 : checkOpArgs args1 opRequiredFlagsMap = none := by
    rw [shipped_checkOpArgs_value, if_pos hop1, if_neg hitem]
  have hA2 : checkArgs L o2 args2 = none :=
    (shipped_checkArgs_none_iff L o2 args2 h2).mpr ⟨hf2, by rw [hop2]; decide⟩
  have hO2 : checkOpArgs args2 opRequiredFlagsMap = none := by
    rw [shipped_checkOpArgs_value, if_neg (by rw [hop2]; decide),
      if_neg (by rw [hop2]; decide)]
  obtain ⟨ra, wa, ua, u, _, hlist, hperf, herr, _, hfiles, _, _, hadd, _, _, hfails⟩ :=
    Perform_valid_run L o1 args1 writer w h1 hA1 hO1 (by rw [hname1]; exact hopen)
  obtain ⟨hu, hout⟩ := hadd hop1
  rw [hname1] at hlist hfiles
  have hnone : findLoop (L.UnmarshalUser (index args1 itemFlag) User.zero).Id (elems ua.list)
      = none := by
    rw [hlist, hempty]
    rfl
  rw [Add_of_not_found L ua _ hnone] at hu hout
  have hnew : u.list = some [r] := by
    rw [hu, hdec]
    exact goAppend_no_records ua.list r (by rw [hlist]; exact hempty)
  rw [hnew] at hfiles
  have hcontent : ra.world.content name = L.MarshalUsers (some [r]) := by
    simp [World.content, hfiles]
  obtain ⟨rl, wl, ul, u2, _, hlist2, hperf2, herr2, _, hfiles2, _, hlst, _⟩ :=
    Perform_valid_run L o2 args2 [] ra.world h2 hA2 hO2
      (by rw [hname2, hfails]; exact hopen)
  obtain ⟨hu2, hout2⟩ := hlst hop2
  rw [hname2, hcontent, hround] at hlist2
  rw [hname2, hu2, hlist2] at hfiles2
  rw [hlist2] at hout2
  exact ⟨ra, rl, hperf, herr, by simpa using hout, hfiles, hperf2, herr2,
    by simpa using hout2, hfiles2⟩

/-- Witness of C14: the item of the record 1, a@b.com, 30 added to a world
without files, then listed. -/
theorem C14_add_then_list_witness :
    ∃ ra rl, Perform goStd flags
        [("operation", "add"), ("fileName", "users.json"),
          ("item", "\x7b\"id\":\"1\",\"email\":\"a@b.com\",\"age\":30\x7d")] []
        emptyWorld = some ra ∧
      ra.err = none ∧ ra.out = [] ∧
      ra.world.files "users.json"
        = some "[\x7b\"id\":\"1\",\"email\":\"a@b.com\",\"age\":30\x7d]" ∧
      Perform goStd flags.reverse [("fileName", "users.json"), ("operation", "list")] []
        ra.world = some rl ∧
      rl.err = none ∧
      rl.out = ["[\x7b\"id\":\"1\",\"email\":\"a@b.com\",\"age\":30\x7d]"] ∧
      rl.world.files "users.json"
        = some "[\x7b\"id\":\"1\",\"email\":\"a@b.com\",\"age\":30\x7d]" := by
  obtain ⟨ra, rl, ha, hae, hao, haf, hl, hle, hlo, hlf⟩ :=
    C14_add_then_list goStd flags flags.reverse
      [("operation", "add"), ("fileName", "users.json"),
        ("item", "\x7b\"id\":\"1\",\"email\":\"a@b.com\",\"age\":30\x7d")]
      [("fileName", "users.json"), ("operation", "list")] [] emptyWorld "users.json"
      ⟨"1", "a@b.com", 30⟩ (List.Perm.refl flags) (List.reverse_perm flags)
      (by decide) (by decide) (by decide) (by decide) (by decide) (by decide) rfl
      (by decide) (by decide) (by decide)
  exact ⟨ra, rl, ha, hae, hao, haf.trans (by decide), hl, hle, hlo.trans (by decide),
    hlf.trans (by decide)⟩

/-- The concrete encoder writes a non-nil slice as the objects of its records,
in order, separated by commas, between brackets. -/
theorem encodeUsers_some (l : List User) :
    encodeUsers (some l) = '[' :: (List.intercalate [','] (l.map encodeUser) ++ [']']) := by
  have htail : ∀ (u : User) (us : List User),
      encodeUser u ++ encodeTail us
        = List.intercalate [','] ((u :: us).map encodeUser) ++ [']'] := by
    intro u us
    induction us generalizing u with
    | nil => simp [encodeTail, List.intercalate]
    | cons v vs ih =>
      have := ih v
      simp only [List.intercalate, List.map_cons, List.intersperse, List.flatten_cons,
        List.append_assoc, List.singleton_append, encodeTail] at this ⊢
      rw [this]
      rfl
  cases l with
  | nil => rfl
  | cons u us =>
    show '[' :: (encodeUser u ++ encodeTail us) = _
    rw [htail]

/-- C15: under every visiting order of the shipped table, for a file that can
be opened and decodes to a collection without records, and a non-empty id,
`Perform` with operation remove writes the one chunk
"Item with id <id> not found", returns nil, and `Save` leaves the file holding
the encoding of the loaded collection; every other file is untouched. The
concrete library decodes a missing or empty file to the nil slice, which it
encodes as `null`, and the text `[]` to the empty slice, which it encodes as
`[]`. -/
theorem C15_remove_on_empty_store (L : GoStd) (order : List (String × flagParams))
    (args : Arguments) (writer : List String) (w : World) (hperm : order.Perm flags)
    (hop : index args operationFlag = operationRemove)
    (hfile : ¬ absentOrEmpty args filenameFlag)
    (hid : ¬ absentOrEmpty args idFlag)
    (hopen : w.openFails (index args filenameFlag) = false)
    (hempty : elems (L.UnmarshalUsers (w.content (index args filenameFlag)) none) = []) :
    (∃ r, Perform L order args writer w = some r ∧ r.err = none ∧
      r.out = writer ++ ["Item with id " ++ index args idFlag ++ " not found"] ∧
      r.world.files (index args filenameFlag)
        = some (L.MarshalUsers (L.UnmarshalUsers (w.content (index args filenameFlag)) none)) ∧
      (∀ n, n ≠ index args filenameFlag → r.world.files n = w.files n)) ∧
    goStd.MarshalUsers (goStd.UnmarshalUsers "" none) = "null" ∧
    goStd.MarshalUsers (goStd.UnmarshalUsers "[]" none) = "[]" := by
  have hA : checkArgs L order args = none :=
    (shipped_checkArgs_none_iff L order args hperm).mpr ⟨hfile, by rw [hop]; decide⟩
  have hO : checkOpArgs args opRequiredFlagsMap = none := by
    rw [shipped_checkOpArgs_value, if_neg (by rw [hop]; decide), if_pos (Or.inl hop),
      if_neg hid]
  obtain ⟨r, w1, u0, u, _, hlist, hperf, herr, _, hfiles, hother, _, _, hrem, _⟩ :=
    Perform_valid_run L order args writer w hperm hA hO hopen
  obtain ⟨hu, hout⟩ := hrem hop
  have hnone : findLoop (index args idFlag) (elems u0.list) = none := by
    rw [hlist, hempty]
    rfl
  rw [Remove_of_not_found u0 _ hnone] at hu hout
  rw [hu, hlist] at hfiles
  exact ⟨⟨r, hperf, herr, by simpa using hout, hfiles, hother⟩, by decide, by decide⟩

/-- Counterexample to C15 as stated: on a world without files the loaded
collection has no records; remove with id 42 writes the stated text and
returns nil, and the file afterwards holds `null`, not an empty array. -/
theorem C15_file_holds_null :
    elems (goStd.UnmarshalUsers (emptyWorld.content "users.json") none) = [] ∧
    (Perform goStd flags
        [("operation", "remove"), ("fileName", "users.json"), ("id", "42")] []
        emptyWorld).map (fun r => (r.out, r.err, r.world.files "users.json"))
      = some (["Item with id 42 not found"], none, some "null") ∧
    (some "null" : Option String) ≠ some "[]" := by
  refine ⟨by decide, by decide, by decide⟩

/-- Witness of C15: the file holds the empty array; remove with id 42 writes
the stated text and the file still holds the empty array. -/
theorem C15_remove_on_empty_store_witness :
    ∃ r, Perform goStd flags
        [("operation", "remove"), ("fileName", "users.json"), ("id", "42")] []
        (emptyWorld.setFile "users.json" "[]") = some r ∧
      r.err = none ∧ r.out = ["Item with id 42 not found"] ∧
      r.world.files "users.json" = some "[]" := by
  obtain ⟨r, hperf, herr, hout, hfiles, _⟩ :=
    (C15_remove_on_empty_store goStd flags
      [("operation", "remove"), ("fileName", "users.json"), ("id", "42")] []
      (emptyWorld.setFile "users.json" "[]") (List.Perm.refl flags)
      (by decide) (by decide) (by decide) rfl (by decide)).1
  exact ⟨r, hperf, herr, hout.trans (by decide), hfiles.trans (by decide)⟩

/-- C16: under every visiting order of the shipped table, after a `Perform`
that passes both checks on a file that can be opened, nil is returned and the
file holds the encoding of the final collection: the loaded one after list
and findById, the one `Add` left after add, the one `Remove` left after
remove. That collection is the nil slice when the loaded one was nil and the
operation was not add, and when remove deleted the only record. The concrete
library encodes the nil slice as `null` and a non-nil slice as the objects of
its records, in order, separated by commas, between brackets; it decodes a
missing or empty file to the nil slice. -/
theorem C16_file_after_Perform (L : GoStd) (order : List (String × flagParams))
    (args : Arguments) (writer : List String) (w : World) (hperm : order.Perm flags)
    (hA : checkArgs L order args = none)
    (hO : checkOpArgs args opRequiredFlagsMap = none)
    (hopen : w.openFails (index args filenameFlag) = false) :
    (∃ (r : Run) (w1 : World) (u0 u : UserList),
      (UserList.zero.New (createDS fileDataSource (index args filenameFlag))).Load L w
        = some (w1, u0) ∧
      u0.list = L.UnmarshalUsers (w.content (index args filenameFlag)) none ∧
      Perform L order args writer w = some r ∧ r.err = none ∧
      r.world.files (index args filenameFlag) = some (L.MarshalUsers u.list) ∧
      (index args operationFlag = operationList ∨
        index args operationFlag = operationFindById → u = u0) ∧
      (index args operationFlag = operationAdd →
        u = (u0.Add L (index args itemFlag)).recv) ∧
      (index args operationFlag = operationRemove →
        u = (u0.Remove (index args idFlag)).recv) ∧
      (index args operationFlag ≠ operationAdd → u0.list = none → u.list = none) ∧
      (index args operationFlag = operationRemove →
        ∀ v, elems u0.list = [v] → v.Id = index args idFlag → u.list = none)) ∧
    goStd.MarshalUsers none = "null" ∧
    (∀ l, goStd.MarshalUsers (some l)
      = String.mk ('[' :: (List.intercalate [','] (l.map encodeUser) ++ [']']))) ∧
    goStd.UnmarshalUsers "" none = none := by
  obtain ⟨r, w1, u0, u, hload, hlist, hperf, herr, _, hfiles, _, hlst, hadd, hrem, hfind, _⟩ :=
    Perform_valid_run L order args writer w hperm hA hO hopen
  have hop := ((shipped_checkArgs_none_iff L order args hperm).mp hA).2
  simp only [List.mem_cons, List.mem_singleton, List.not_mem_nil, or_false] at hop
  refine ⟨⟨r, w1, u0, u, hload, hlist, hperf, herr, hfiles, ?_, fun h => (hadd h).1,
    fun h => (hrem h).1, ?_, ?_⟩, rfl, fun l => by
      show String.mk (encodeUsers (some l)) = _
      rw [encodeUsers_some], by decide⟩
  · rintro (h | h)
    · exact (hlst h).1
    · exact (hfind h).1
  · intro hne hnil
    rcases hop with h | h | h | h
    · rw [(hlst h).1, hnil]
    · exact absurd h hne
    · have hnone : findLoop (index args idFlag) (elems u0.list) = none := by
        rw [hnil]
        rfl
      rw [(hrem h).1, Remove_of_not_found u0 _ hnone, hnil]
    · rw [(hfind h).1, hnil]
  · intro h v hv hvid
    obtain ⟨pre, v1, post, hl, _, _, hR⟩ :=
      Remove_present_split u0 (index args idFlag) ⟨v, by rw [hv]; simp, hvid⟩
    rw [(hrem h).1, hR]
    rw [hv] at hl
    have hpre : pre = [] := by
      cases pre with
      | nil => rfl
      | cons a t =>
        have := congrArg List.length hl
        simp at this
    subst hpre
    have hpost : post = [] := by
      have := congrArg List.length hl
      simpa using this.symm
    subst hpost
    rfl

/-- Counterexample to C16 as stated: the file holds one record of id 1;
remove with id 1 passes both checks, writes nothing and returns nil, and the
file afterwards holds `null`, not an empty array. -/
theorem C16_file_holds_null_after_last_remove :
    (Perform goStd flags
        [("operation", "remove"), ("fileName", "users.json"), ("id", "1")] []
        (emptyWorld.setFile "users.json"
          "[\x7b\"id\":\"1\",\"email\":\"a@b.com\",\"age\":30\x7d]")).map
        (fun r => (r.out, r.err, r.world.files "users.json"))
      = some ([], none, some "null") ∧
    (some "null" : Option String) ≠ some "[]" := by
  refine ⟨by decide, by decide⟩

/-- Witness of C16: two records in the file, remove with id 1; the file
afterwards holds the array of the one record left. -/
theorem C16_file_after_Perform_witness :
    ∃ r, Perform goStd flags
        [("operation", "remove"), ("fileName", "users.json"), ("id", "1")] []
        (emptyWorld.setFile "users.json"
          "[\x7b\"id\":\"1\",\"email\":\"a@b.com\",\"age\":30\x7d,\x7b\"id\":\"2\",\"email\":\"c@d.com\",\"age\":7\x7d]")
        = some r ∧
      r.err = none ∧
      r.world.files "users.json"
        = some "[\x7b\"id\":\"2\",\"email\":\"c@d.com\",\"age\":7\x7d]" := by
  obtain ⟨r, w1, u0, u, _, hlist, hperf, herr, hfiles, _, _, hrem, _⟩ :=
    (C16_file_after_Perform goStd flags
      [("operation", "remove"), ("fileName", "users.json"), ("id", "1")] []
      (emptyWorld.setFile "users.json"
        "[\x7b\"id\":\"1\",\"email\":\"a@b.com\",\"age\":30\x7d,\x7b\"id\":\"2\",\"email\":\"c@d.com\",\"age\":7\x7d]")
      (List.Perm.refl flags) (by decide) (by decide) rfl).1
  have hl : u0.list = some [⟨"1", "a@b.com", 30⟩, ⟨"2", "c@d.com", 7⟩] :=
    hlist.trans (by decide)
  have hu : u.list = some [⟨"2", "c@d.com", 7⟩] := by
    rw [hrem (by decide)]
    have hfind : findLoop "1" (elems u0.list) = some ⟨"1", "a@b.com", 30⟩ := by
      rw [hl]
      decide
    have hR := Remove_of_found u0 "1" _ hfind
    have hidx : index [("operation", "remove"), ("fileName", "users.json"), ("id", "1")] idFlag
        = "1" := by decide
    rw [hidx, hR, hl]
    show removeLoop "1" _ _ 0 = _
    decide
  have hf : r.world.files "users.json" = some (goStd.MarshalUsers u.list) := hfiles
  exact ⟨r, hperf, herr, by rw [hf, hu]; decide⟩

/-! ### Items that do not decode: claim C17 -/

/-- C17: when the library leaves the zero-valued record untouched on the item,
as `json.Unmarshal` does on malformed JSON, `Add` treats the item as the zero
record (id "", email "", age 0): on a collection with no record of id "" it
returns no error and appends that zero record; on a collection that already
has a record of id "" it returns the duplicate-id error and leaves the
receiver as it was; so a second `Add` of such an item always fails and
changes nothing. -/
theorem C17_Add_malformed_item (L : GoStd) (ul : UserList) (item : String)
    (hzero : L.UnmarshalUser item User.zero = User.zero) :
    ((∀ u ∈ elems ul.list, u.Id ≠ "") →
      (ul.Add L item).err = none ∧
      elems (ul.Add L item).recv.list = elems ul.list ++ [User.zero]) ∧
    ((∃ u ∈ elems ul.list, u.Id = "") →
      (ul.Add L item).err = some "Item with id  already exists" ∧
      (ul.Add L item).recv = ul) ∧
    (∀ item2, L.UnmarshalUser item2 User.zero = User.zero →
      ((ul.Add L item).recv.Add L item2).err = some "Item with id  already exists" ∧
      ((ul.Add L item).recv.Add L item2).recv = (ul.Add L item).recv) := by
  have hid : (L.UnmarshalUser item User.zero).Id = "" := by rw [hzero]; rfl
  have hdup : ∀ (x : UserList) (it : String), L.UnmarshalUser it User.zero = User.zero →
      (∃ u ∈ elems x.list, u.Id = "") →
      (x.Add L it).err = some "Item with id  already exists" ∧ (x.Add L it).recv = x := by
    intro x it hz hex
    have hi : (L.UnmarshalUser it User.zero).Id = "" := by rw [hz]; rfl
    have hex2 : ∃ u ∈ elems x.list, u.Id = (L.UnmarshalUser it User.zero).Id := by
      rw [hi]
      exact hex
    obtain ⟨v, hv⟩ := (findLoop_isSome_iff _ (elems x.list)).mpr hex2
    rw [Add_of_found L x it v hv, hi]
    exact ⟨rfl, rfl⟩
  have hfresh : (∀ u ∈ elems ul.list, u.Id ≠ "") →
      (ul.Add L item).err = none ∧
      elems (ul.Add L item).recv.list = elems ul.list ++ [User.zero] := by
    intro hno
    have hno2 : ∀ u ∈ elems ul.list, u.Id ≠ (L.UnmarshalUser item User.zero).Id := by
      rw [hid]
      exact hno
    rw [Add_of_not_found L ul item ((findLoop_eq_none_iff _ _).mpr hno2), hzero]
    exact ⟨rfl, elems_goAppend _ _⟩
  refine ⟨hfresh, hdup ul item hzero, ?_⟩
  intro item2 hz2
  apply hdup _ item2 hz2
  by_cases hex : ∃ u ∈ elems ul.list, u.Id = ""
  · rw [(hdup ul item hzero hex).2]
    exact hex
  · have hno : ∀ u ∈ elems ul.list, u.Id ≠ "" := fun u hu hc => hex ⟨u, hu, hc⟩
    rw [(hfresh hno).2]
    exact ⟨User.zero, by simp, rfl⟩

/-- Counterexample to C17 as stated: the item is a JSON object whose age is a
string, so decoding ends with a type error and the item is not parsable as a
user record; yet `Add` on the empty collection appends the record with the id
and email of the item, not the zero-valued record. -/
theorem C17_type_error_keeps_fields :
    (unmarshalUserTyped "\x7b\"id\":\"7\",\"email\":\"e@f.g\",\"age\":\"old\"\x7d"
      User.zero).2 = DecodeStatus.typeError ∧
    (UserList.zero.Add goStdTyped
      "\x7b\"id\":\"7\",\"email\":\"e@f.g\",\"age\":\"old\"\x7d").err = none ∧
    elems (UserList.zero.Add goStdTyped
      "\x7b\"id\":\"7\",\"email\":\"e@f.g\",\"age\":\"old\"\x7d").recv.list
      = [⟨"7", "e@f.g", 0⟩] ∧
    (⟨"7", "e@f.g", 0⟩ : User) ≠ User.zero := by
  refine ⟨by decide, by decide, by decide, by decide⟩

/-- Witness of C17: the text "not json" added twice to the empty collection. -/
theorem C17_Add_malformed_item_witness :
    goStd.UnmarshalUser "not json" User.zero = User.zero ∧
    elems (UserList.zero.Add goStd "not json").recv.list = [User.zero] ∧
    ((UserList.zero.Add goStd "not json").recv.Add goStd "not json").err
      = some "Item with id  already exists" :=
  ⟨by decide,
    ((C17_Add_malformed_item goStd UserList.zero "not json" (by decide)).1
      (by simp [UserList.zero, elems])).2,
    ((C17_Add_malformed_item goStd UserList.zero "not json" (by decide)).2.2
      "not json" (by decide)).1⟩

end Homework8
